import Mathlib

/-!
Verification of the Freescape `Area` spatial world model
(`engines/freescape/area.cpp`).

Embedding conventions, used throughout:

* C++ `float` arithmetic is embedded as exact rational arithmetic (`ℚ`).
  Every comparison and division the modelled code performs is an order
  comparison or a field operation, exactly representable over `ℚ`; the
  claims under study are control-flow and algebraic properties, not
  rounding properties.
* `lineToPlane` returns `INFINITY` when the plane denominator is zero;
  this is embedded as `Option ℚ` with `none` standing for the infinite
  value.  The guard chain `s >= 0 && ... && s < h` of the source always
  rejects the infinite value (`h` never exceeds `1.0`), so `none`
  short-circuits every plane test exactly as `INFINITY` does.
* `Math::Vector3d::length()` is a square root; the source only ever
  compares lengths with each other or with the constant `16.0 * 8192.0`.
  Such comparisons are embedded on the squares (the square root is
  monotone), so `shootRay` carries squared sizes and the squared cutoff.
* `Common::HashMap` is embedded as an association list whose order is
  the map's storage order: updates of an existing key keep its slot,
  insertion of a fresh key is modelled as appending.  Keys of a hash
  map are unique, recorded where needed as a `Nodup` hypothesis.
* The drawable view of the C++ code stores pointers into the object
  maps; the embedding stores object values.  Claims that relate the
  view to the map carry the correspondence explicitly.
-/

namespace Freescape

/-- A 3-component vector, embedding `Math::Vector3d` with exact rational
coordinates. -/
structure Vec3 where
  x : ℚ
  y : ℚ
  z : ℚ
  deriving DecidableEq, Repr

namespace Vec3

instance : Add Vec3 := ⟨fun a b => ⟨a.x + b.x, a.y + b.y, a.z + b.z⟩⟩

instance : Sub Vec3 := ⟨fun a b => ⟨a.x - b.x, a.y - b.y, a.z - b.z⟩⟩

instance : SMul ℚ Vec3 := ⟨fun q v => ⟨q * v.x, q * v.y, q * v.z⟩⟩

/-- The zero vector, the value of the default `Math::Vector3d` constructor. -/
def zero : Vec3 := ⟨0, 0, 0⟩

/-- `Math::Vector3d::dotProduct`. -/
def dotProduct (a b : Vec3) : ℚ := a.x * b.x + a.y * b.y + a.z * b.z

theorem add_def (a b : Vec3) : a + b = ⟨a.x + b.x, a.y + b.y, a.z + b.z⟩ := rfl

theorem sub_def (a b : Vec3) : a - b = ⟨a.x - b.x, a.y - b.y, a.z - b.z⟩ := rfl

theorem smul_def (q : ℚ) (v : Vec3) : q • v = ⟨q * v.x, q * v.y, q * v.z⟩ := rfl

end Vec3

/-- An axis-aligned bounding box, embedding `Math::AABB`: per-axis minimum
and maximum corners plus the validity flag. -/
structure AABB where
  min : Vec3
  max : Vec3
  valid : Bool
  deriving DecidableEq, Repr

/-- `Math::AABB::getSize`. -/
def AABB.getSize (b : AABB) : Vec3 := b.max - b.min

/-- The object type tags the claims distinguish (`kSensorType`,
`kGroupType`, the geometric primitives, everything else). -/
inductive ObjType where
  | sensor
  | cube
  | group
  | other
  deriving DecidableEq, Repr

/-- An `Object` as the `Area` code observes it: its id, type, flags word,
origin and extent, the predicates `isDestroyed` / `isInvisible` /
`isDrawable` / `isPlanar`, and its axis-aligned bounding box. -/
structure Obj where
  objectID : ℕ
  objType : ObjType
  flags : ℕ
  origin : Vec3
  size : Vec3
  destroyed : Bool
  invisible : Bool
  drawable : Bool
  planar : Bool
  boundingBox : AABB
  deriving DecidableEq, Repr

/-- `lineToPlane(p, u, v, n)`: the parameter at which the line through `p`
with direction `u` meets the plane through `v` with normal `n`; `none`
embeds the `INFINITY` returned when `n · u == 0` (the division is guarded). -/
def lineToPlane (p u v n : Vec3) : Option ℚ :=
  let NdotU := n.dotProduct u
  if NdotU = 0 then none
  else some (n.dotProduct (v - p) / NdotU)

/-- `between(x, a, b)`. -/
def between (x a b : ℚ) : Bool := decide (x ≥ a) && decide (x ≤ b)

/-- One guarded plane test of `sweepAABB`: the candidate fraction `s`, the
sign test on the motion component (`dcond`), the two `between` checks, and
the face normal `n` to install.  The running state `cur` is the pair
`(h, normal)`; an infinite candidate (`s = none`) never passes `s < h`
(`h ≤ 1.0` throughout), so it leaves the state unchanged. -/
def planeStep (dcond : Bool) (s : Option ℚ) (bt1 bt2 : ℚ → Bool) (n : Vec3)
    (cur : ℚ × Vec3) : ℚ × Vec3 :=
  match s with
  | none => cur
  | some sv =>
    if decide (sv ≥ 0) && dcond && decide (sv < cur.1) && bt1 sv && bt2 sv then (sv, n)
    else cur

/-- One plane candidate of `sweepAABB`, bundling the arguments of its
`planeStep`. -/
structure PlaneCand where
  dcond : Bool
  s : Option ℚ
  bt1 : ℚ → Bool
  bt2 : ℚ → Bool
  n : Vec3

/-- The six candidate planes of `sweepAABB`, in source order (X min, X max,
Y min, Y max, Z min, Z max).  `m = b.min - a.max` and `mh` is the sum of the
two box sizes; the in-place updates `m.x() += mh.x()` etc. of the source are
inlined into the offset plane points. -/
def planes (a b : AABB) (direction : Vec3) : List PlaneCand :=
  let m := b.min - a.max
  let mh := a.getSize + b.getSize
  [ { dcond := decide (direction.x > 0)
      s := lineToPlane Vec3.zero direction m ⟨-1, 0, 0⟩
      bt1 := fun s => between (s * direction.y) m.y (m.y + mh.y)
      bt2 := fun s => between (s * direction.z) m.z (m.z + mh.z)
      n := ⟨-1, 0, 0⟩ },
    { dcond := decide (direction.x < 0)
      s := lineToPlane Vec3.zero direction ⟨m.x + mh.x, m.y, m.z⟩ ⟨1, 0, 0⟩
      bt1 := fun s => between (s * direction.y) m.y (m.y + mh.y)
      bt2 := fun s => between (s * direction.z) m.z (m.z + mh.z)
      n := ⟨1, 0, 0⟩ },
    { dcond := decide (direction.y > 0)
      s := lineToPlane Vec3.zero direction m ⟨0, -1, 0⟩
      bt1 := fun s => between (s * direction.x) m.x (m.x + mh.x)
      bt2 := fun s => between (s * direction.z) m.z (m.z + mh.z)
      n := ⟨0, -1, 0⟩ },
    { dcond := decide (direction.y < 0)
      s := lineToPlane Vec3.zero direction ⟨m.x, m.y + mh.y, m.z⟩ ⟨0, 1, 0⟩
      bt1 := fun s => between (s * direction.x) m.x (m.x + mh.x)
      bt2 := fun s => between (s * direction.z) m.z (m.z + mh.z)
      n := ⟨0, 1, 0⟩ },
    { dcond := decide (direction.z > 0)
      s := lineToPlane Vec3.zero direction m ⟨0, 0, -1⟩
      bt1 := fun s => between (s * direction.x) m.x (m.x + mh.x)
      bt2 := fun s => between (s * direction.y) m.y (m.y + mh.y)
      n := ⟨0, 0, -1⟩ },
    { dcond := decide (direction.z < 0)
      s := lineToPlane Vec3.zero direction ⟨m.x, m.y, m.z + mh.z⟩ ⟨0, 0, 1⟩
      bt1 := fun s => between (s * direction.x) m.x (m.x + mh.x)
      bt2 := fun s => between (s * direction.y) m.y (m.y + mh.y)
      n := ⟨0, 0, 1⟩ } ]

/-- `sweepAABB(a, b, direction, normal)`: the fraction of `direction` at
which box `a` first touches box `b`, together with the hit face normal.
The out-parameter `normal` enters holding the caller's zero vector and is
returned unchanged when no plane is selected; `h` starts at `1.0` and the
six guarded plane tests run in source order. -/
def sweepAABB (a b : AABB) (direction : Vec3) : ℚ × Vec3 :=
  (planes a b direction).foldl
    (fun cur pc => planeStep pc.dcond pc.s pc.bt1 pc.bt2 pc.n cur) (1, Vec3.zero)

/-- Modelled from the spec: `createPlayerAABB` is only declared `extern` in
`area.cpp`; §4.4 step 1 reads "Build the player's AABB at the last position
using the supplied height", a vertical capsule-like box.  The model is a box
of half-width `1` around the position, extending `playerHeight` below it and
`1` above it. -/
def createPlayerAABB (position : Vec3) (playerHeight : ℚ) : AABB :=
  { min := ⟨position.x - 1, position.y - playerHeight, position.z - 1⟩
    max := ⟨position.x + 1, position.y + 1, position.z + 1⟩
    valid := true }

/-- The anti-penetration skin of `resolveCollisions`: `float epsilon = 1.5`. -/
def epsilon : ℚ := 3 / 2

/-- The body of the inner object loop of one `resolveCollisions` pass: a
non-destroyed, non-invisible drawable object whose sweep fraction is below
the running minimum replaces the running `(distance, normal)` pair. -/
def collisionStep (bb : AABB) (direction : Vec3) (acc : ℚ × Vec3) (obj : Obj) :
    ℚ × Vec3 :=
  if !obj.destroyed && !obj.invisible then
    let c := sweepAABB bb obj.boundingBox direction
    if c.1 < acc.1 then c else acc
  else acc

/-- The inner object loop of one `resolveCollisions` pass: starting from
`distance = 1.0` and the zero `normal`, sweep the player box against every
non-destroyed, non-invisible drawable object and keep the smallest fraction
(and its normal). -/
def collisionSweep (objs : List Obj) (bb : AABB) (direction : Vec3) : ℚ × Vec3 :=
  objs.foldl (collisionStep bb direction) (1, Vec3.zero)

/-- The outcome of `resolveCollisions`: a returned position, or the fatal
`assert(i <= 5)` firing. -/
inductive ResolveResult where
  | ok (position : Vec3)
  | fatalAssert
  deriving DecidableEq, Repr

/-- The `while (true)` loop of `resolveCollisions`, with the retry budget of
the `assert(i <= 5)` counter made explicit as fuel (`fuel = 5 - i`): each
pass sweeps from the fixed `lastPosition` toward the current `position`,
advances to `lastPosition + distance * direction + epsilon * normal`, stops
when `distance >= 1.0`, and otherwise retries with the advanced position as
the new target; a blocked pass with no fuel left is the sixth blocked pass,
where the assertion aborts.  The second component counts the passes run. -/
def resolveLoop (objs : List Obj) (bb : AABB) (lastPosition : Vec3) :
    ℕ → Vec3 → ResolveResult × ℕ
  | fuel, position =>
    let direction := position - lastPosition
    let dn := collisionSweep objs bb direction
    let advanced := lastPosition + dn.1 • direction + epsilon • dn.2
    if dn.1 ≥ 1 then (ResolveResult.ok advanced, 1)
    else
      match fuel with
      | 0 => (ResolveResult.fatalAssert, 1)
      | f + 1 =>
        let r := resolveLoop objs bb lastPosition f advanced
        (r.1, r.2 + 1)

/-- `Area::resolveCollisions`, instrumented with the pass count: the player
box is built once at `lastPosition_` and the loop starts with the retry
budget `5`. -/
def resolveCollisionsTraced (objs : List Obj) (lastPosition_ newPosition_ : Vec3)
    (playerHeight : ℚ) : ResolveResult × ℕ :=
  resolveLoop objs (createPlayerAABB lastPosition_ playerHeight) lastPosition_ 5 newPosition_

/-- `Area::resolveCollisions`. -/
def resolveCollisions (objs : List Obj) (lastPosition_ newPosition_ : Vec3)
    (playerHeight : ℚ) : ResolveResult :=
  (resolveCollisionsTraced objs lastPosition_ newPosition_ playerHeight).1

/-- The resolver loop as the claim words it ("repeat from step 2 using the
new position as the updated last reference and the original desired position
as the target"): here the advanced position replaces the `last` reference of
the next pass and the sweep target stays the original desired position.
Defined from the claim text only, to be compared with `resolveLoop`. -/
def resolveLoopClaim (objs : List Obj) (bb : AABB) (desired : Vec3) :
    ℕ → Vec3 → ResolveResult
  | fuel, lastPosition =>
    let direction := desired - lastPosition
    let dn := collisionSweep objs bb direction
    let advanced := lastPosition + dn.1 • direction + epsilon • dn.2
    if dn.1 ≥ 1 then ResolveResult.ok advanced
    else
      match fuel with
      | 0 => ResolveResult.fatalAssert
      | f + 1 => resolveLoopClaim objs bb desired f advanced

/-- `resolveCollisions` as claim C2 describes it, built on `resolveLoopClaim`. -/
def resolveCollisionsClaim (objs : List Obj) (lastPosition_ newPosition_ : Vec3)
    (playerHeight : ℚ) : ResolveResult :=
  resolveLoopClaim objs (createPlayerAABB lastPosition_ playerHeight) newPosition_ 5
    lastPosition_

/-- A ray: origin and direction, embedding `Math::Ray`. -/
structure Ray where
  origin : Vec3
  direction : Vec3
  deriving DecidableEq, Repr

/-- One axis of the slab test: a parallel axis (zero direction component)
requires the ray origin inside the slab. -/
def axisParallelOK (o d lo hi : ℚ) : Bool :=
  if d = 0 then decide (lo ≤ o) && decide (o ≤ hi) else true

/-- One axis of the slab test: the parameter interval in which the ray is
inside the slab, `none` for a parallel axis. -/
def axisIv (o d lo hi : ℚ) : Option (ℚ × ℚ) :=
  if d = 0 then none
  else some (min ((lo - o) / d) ((hi - o) / d), max ((lo - o) / d) ((hi - o) / d))

/-- Raise the running entry parameter by one axis slab interval (a parallel
axis constrains nothing). -/
def maxLo (m : ℚ) : Option (ℚ × ℚ) → ℚ
  | none => m
  | some iv => max m iv.1

/-- The entry parameter is no later than the exit of one axis slab interval
(a parallel axis constrains nothing). -/
def hiOK (m : ℚ) : Option (ℚ × ℚ) → Bool
  | none => true
  | some iv => decide (m ≤ iv.2)

/-- Modelled from the spec: `Math::Ray::intersectAABB` is math-library code
outside the excerpted sources; §4.3 only requires "the ray intersects that
box".  The model is the standard slab test for the half-line `t ≥ 0`. -/
def rayIntersectAABB (r : Ray) (box : AABB) : Bool :=
  axisParallelOK r.origin.x r.direction.x box.min.x box.max.x &&
  axisParallelOK r.origin.y r.direction.y box.min.y box.max.y &&
  axisParallelOK r.origin.z r.direction.z box.min.z box.max.z &&
  (let ivx := axisIv r.origin.x r.direction.x box.min.x box.max.x
   let ivy := axisIv r.origin.y r.direction.y box.min.y box.max.y
   let ivz := axisIv r.origin.z r.direction.z box.min.z box.max.z
   let tlo := maxLo (maxLo (maxLo 0 ivx) ivy) ivz
   hiOK tlo ivx && hiOK tlo ivy && hiOK tlo ivz)

/-- The squared Euclidean length of `obj->getSize()`: the source compares
`getSize().length()` values (square roots), embedded on the squares. -/
def sizeSq (o : Obj) : ℚ := o.size.x * o.size.x + o.size.y * o.size.y + o.size.z * o.size.z

/-- The square of the initial cutoff `float size = 16.0 * 8192.0` of
`shootRay`. -/
def maxShootSizeSq : ℚ := (16 * 8192) * (16 * 8192)

/-- The candidate loop of `Area::shootRay`: `collided` and `size` are the
running best hit and its (squared) size; the source guard is
`!destroyed && !invisible && bbox valid && ray intersects && size >= objSize`. -/
def shootRayLoop (r : Ray) : List Obj → Option Obj → ℚ → Option Obj
  | [], collided, _ => collided
  | obj :: rest, collided, size =>
    if !obj.destroyed && !obj.invisible && obj.boundingBox.valid &&
        rayIntersectAABB r obj.boundingBox && decide (sizeSq obj ≤ size) then
      shootRayLoop r rest (some obj) (sizeSq obj)
    else shootRayLoop r rest collided size

/-- `Area::shootRay`, iterating the drawable-ordered view. -/
def shootRay (drawableObjects : List Obj) (r : Ray) : Option Obj :=
  shootRayLoop r drawableObjects none maxShootSizeSq

/-- A `shootRay` candidate restricted by a size cutoff `c`: the object is
not destroyed, not invisible, has a valid bounding box intersected by the
ray, and its squared size is at most `c`. -/
def shootQualWithin (r : Ray) (o : Obj) (c : ℚ) : Prop :=
  o.destroyed = false ∧ o.invisible = false ∧ o.boundingBox.valid = true ∧
    rayIntersectAABB r o.boundingBox = true ∧ sizeSq o ≤ c

instance (r : Ray) (o : Obj) (c : ℚ) : Decidable (shootQualWithin r o c) := by
  unfold shootQualWithin; infer_instance

/-- A qualifying `shootRay` candidate: `shootQualWithin` at the initial
cutoff `16.0 * 8192.0`. -/
def shootQual (r : Ray) (o : Obj) : Prop := shootQualWithin r o maxShootSizeSq

instance (r : Ray) (o : Obj) : Decidable (shootQual r o) := by
  unfold shootQual; infer_instance

/-- Modelled from the spec: `GeometricObject::collides` lives outside the
excerpted sources; §4.3 reads "collides with the sample cube", a bounding
box overlap, modelled as closed per-axis interval overlap. -/
def aabbOverlap (a b : AABB) : Bool :=
  decide (a.min.x ≤ b.max.x) && decide (b.min.x ≤ a.max.x) &&
  decide (a.min.y ≤ b.max.y) && decide (b.min.y ≤ a.max.y) &&
  decide (a.min.z ≤ b.max.z) && decide (b.min.z ≤ a.max.z)

/-- The bounding box of the synthetic probe cube of `checkInSight`: a
`GeometricObject` of extent `side` in every dimension placed at `origin`
(box from the origin corner to origin plus extent). -/
def probeCube (origin : Vec3) (side : ℚ) : AABB :=
  { min := origin, max := origin + (⟨side, side, side⟩ : Vec3), valid := true }

/-- The distance multipliers of `checkInSight`:
`for (int distanceMultiplier = 2; distanceMultiplier <= 10; distanceMultiplier++)`. -/
def sightMultipliers : List ℕ := [2, 3, 4, 5, 6, 7, 8, 9, 10]

/-- The inner object loop of `checkInSight` at one probe position: some
non-sensor, non-destroyed, non-invisible object with a valid bounding box
overlaps the probe cube. -/
def sightBlockedAt (objs : List Obj) (cube : AABB) : Bool :=
  objs.any fun o =>
    decide (o.objType ≠ ObjType.sensor) && !o.destroyed && !o.invisible &&
      o.boundingBox.valid && aabbOverlap cube o.boundingBox

/-- `Area::checkInSight`.  The source first normalizes the ray direction
with the math library (`Math::Vector3d::normalize`, outside the excerpted
sources); `unitDirection` stands for that normalized direction.  A probe
cube of extent `maxDistance / 30` is placed at each multiplier of
`maxDistance / 10` along it; sight holds when no probe position is blocked. -/
def checkInSight (objs : List Obj) (rayOrigin unitDirection : Vec3)
    (maxDistance : ℚ) : Bool :=
  !(sightMultipliers.any fun k =>
    sightBlockedAt objs
      (probeCube (rayOrigin + ((k : ℚ) * (maxDistance / 10)) • unitDirection)
        (maxDistance / 30)))

/-- The state of an `Area` the claims touch: the `_objectsByID` map, the
drawable-ordered view `_drawableObjects`, the id set of `_addedObjects`, and
the `_colorRemaps` map.  Maps are association lists in storage order (see
the header). -/
structure AreaState where
  objectsByID : List (ℕ × Obj)
  drawableObjects : List Obj
  addedObjects : List ℕ
  colorRemaps : List (ℕ × ℕ)
  deriving DecidableEq, Repr

/-- The comparator of the `Area` constructor: non-planar objects before
planar objects, then descending object id. -/
def compareObjects (object1 object2 : Obj) : Bool :=
  if !object1.planar && object2.planar then true
  else if object1.planar && !object2.planar then false
  else decide (object2.objectID < object1.objectID)

/-- The `Area` constructor over a loaded objects map: keep the drawable
objects only and sort them with `compareObjects` (the library `Common::sort`
is modelled by a sorting function with the same comparator; the claims
depend only on the resulting multiset). -/
def mkArea (objectsByID : List (ℕ × Obj)) : AreaState :=
  { objectsByID := objectsByID
    drawableObjects :=
      List.insertionSort (fun a b => compareObjects a b = true)
        ((objectsByID.map Prod.snd).filter fun o => o.drawable)
    addedObjects := []
    colorRemaps := [] }

/-- `Area::addObject`: fatal (`assert(!_objectsByID->contains(id))`) when the
id is already present; otherwise insert into the objects map, prepend to the
drawable view when drawable (`_drawableObjects.insert_at(0, obj)`), and
record the id among the added objects. -/
def addObject (st : AreaState) (obj : Obj) : Option AreaState :=
  let id := obj.objectID
  if (st.objectsByID.lookup id).isSome then none
  else
    some { st with
      objectsByID := st.objectsByID ++ [(id, obj)]
      drawableObjects :=
        if obj.drawable then obj :: st.drawableObjects else st.drawableObjects
      addedObjects :=
        if st.addedObjects.contains id then st.addedObjects
        else st.addedObjects ++ [id] }

/-- The drawable-view deletion of `Area::removeObject`: remove the first
entry with the given id (the source breaks after the first match). -/
def removeFirstWithID (l : List Obj) (id : ℕ) : List Obj :=
  match l with
  | [] => []
  | o :: rest => if o.objectID = id then rest else o :: removeFirstWithID rest id

/-- `Area::removeObject`: fatal (`assert(_objectsByID->contains(id))`) when
the id is absent; otherwise drop the first drawable-view entry with the id
and erase the id from the objects map and the added set. -/
def removeObject (st : AreaState) (id : ℕ) : Option AreaState :=
  if (st.objectsByID.lookup id).isSome then
    some { st with
      objectsByID := st.objectsByID.filter fun p => p.1 ≠ id
      drawableObjects := removeFirstWithID st.drawableObjects id
      addedObjects := st.addedObjects.filter fun i => i ≠ id }
  else none

/-- An in-place association update: overwrite the value of an existing key
in its slot, append a fresh key (`map[key] = value` on a hash map). -/
def assocSet (l : List (ℕ × ℕ)) (k v : ℕ) : List (ℕ × ℕ) :=
  match l with
  | [] => [(k, v)]
  | (k1, v1) :: rest => if k1 = k then (k, v) :: rest else (k1, v1) :: assocSet rest k v

/-- `Area::remapColor`: `_colorRemaps[index] = color`. -/
def remapColor (st : AreaState) (index color : ℕ) : AreaState :=
  { st with colorRemaps := assocSet st.colorRemaps index color }

/-- Modelled from the spec: `Common::HashMap::clear(shrinkArray)` lives
outside the excerpted sources; §4.5 says `resetArea` "clears all color
remaps" with this same operation, so `clear` removes every entry whatever
its boolean argument. -/
def hashMapClear (_m : List (ℕ × ℕ)) (shrinkArray : Bool) : List (ℕ × ℕ) :=
  match shrinkArray with
  | true => []
  | false => []

/-- The C++ implicit `int` to `bool` conversion. -/
def intAsBool (i : ℤ) : Bool := decide (i ≠ 0)

/-- `Area::unremapColor(index)`: the source calls `_colorRemaps.clear(index)`,
so the integer index is consumed as the `shrinkArray` boolean of the map's
`clear` operation. -/
def unremapColor (st : AreaState) (index : ℤ) : AreaState :=
  { st with colorRemaps := hashMapClear st.colorRemaps (intAsBool index) }

/-- An add/remove call, for sequences of runtime mutations. -/
inductive AreaOp where
  | addOp (obj : Obj)
  | removeOp (id : ℕ)

/-- Run one `AreaOp`. -/
def applyOp (st : AreaState) : AreaOp → Option AreaState
  | .addOp obj => addObject st obj
  | .removeOp id => removeObject st id

/-- Run a sequence of `AreaOp`s; a fatal assertion aborts the sequence. -/
def applyOps (st : AreaState) : List AreaOp → Option AreaState
  | [] => some st
  | op :: rest =>
    match applyOp st op with
    | none => none
    | some st1 => applyOps st1 rest

/-- One 32-bit little-endian word of the save stream, as written by
`writeUint32LE` / `writeFloatLE` (both 4 bytes wide and losslessly read back
by the matching reader, so the wire format is modelled word by word). -/
inductive Word where
  | u32 (n : ℕ)
  | f32 (q : ℚ)
  deriving DecidableEq, Repr

/-- The per-object record of `Area::saveObjects`: key, flags, origin x/y/z. -/
def encodeObjEntry (p : ℕ × Obj) : List Word :=
  [Word.u32 p.1, Word.u32 p.2.flags,
   Word.f32 p.2.origin.x, Word.f32 p.2.origin.y, Word.f32 p.2.origin.z]

/-- The per-remap record of `Area::saveObjects`: source index, color. -/
def encodeRemapEntry (p : ℕ × ℕ) : List Word :=
  [Word.u32 p.1, Word.u32 p.2]

/-- `Area::saveObjects`: the objects map size, the object records in storage
order, then the remap map size and the remap records in storage order. -/
def saveObjects (st : AreaState) : List Word :=
  Word.u32 st.objectsByID.length :: (st.objectsByID.flatMap encodeObjEntry ++
    (Word.u32 st.colorRemaps.length :: st.colorRemaps.flatMap encodeRemapEntry))

/-- The update of one loaded object record: set the flags and origin of the
map entry with the given key (keys of a hash map are unique; the source
mutates the stored object in place through its pointer, so the drawable view
sees the same update — value copies in the view are refreshed where a claim
needs them). -/
def setObjInMap (m : List (ℕ × Obj)) (k flags : ℕ) (pos : Vec3) : List (ℕ × Obj) :=
  m.map fun p => if p.1 = k then (p.1, { p.2 with flags := flags, origin := pos }) else p

/-- One object record of `Area::loadObjects`: update the object when the key
is present; otherwise resolve the key in the global area (`assert(obj)` is
fatal when it is absent there too), duplicate it, `addObject` the duplicate
and then set its flags and origin. -/
def applyObjEntry (global : List (ℕ × Obj)) (st : AreaState) (key flags : ℕ)
    (pos : Vec3) : Option AreaState :=
  match st.objectsByID.lookup key with
  | some _ => some { st with objectsByID := setObjInMap st.objectsByID key flags pos }
  | none =>
    match global.lookup key with
    | none => none
    | some g =>
      match addObject st g with
      | none => none
      | some st1 =>
        some { st1 with objectsByID := setObjInMap st1.objectsByID key flags pos }

/-- The object-record loop of `Area::loadObjects`: read `n` records. -/
def loadEntries (global : List (ℕ × Obj)) :
    ℕ → List Word → AreaState → Option (AreaState × List Word)
  | 0, ws, st => some (st, ws)
  | n + 1, Word.u32 key :: Word.u32 flags :: Word.f32 x :: Word.f32 y ::
      Word.f32 z :: rest, st =>
    match applyObjEntry global st key flags ⟨x, y, z⟩ with
    | none => none
    | some st1 => loadEntries global n rest st1
  | _ + 1, _, _ => none

/-- The remap loop of `Area::loadObjects`: read `m` pairs, `remapColor` each. -/
def loadRemaps : ℕ → List Word → AreaState → Option (AreaState × List Word)
  | 0, ws, st => some (st, ws)
  | m + 1, Word.u32 src :: Word.u32 dst :: rest, st =>
    loadRemaps m rest (remapColor st src dst)
  | _ + 1, _, _ => none

/-- `Area::loadObjects`: read the object count and records, clear the remap
map, then read the remap count and pairs.  Returns the updated state and the
unconsumed remainder of the stream, `none` on a fatal assertion or stream
underrun. -/
def loadObjects (global : List (ℕ × Obj)) (ws : List Word) (st : AreaState) :
    Option (AreaState × List Word) :=
  match ws with
  | Word.u32 n :: rest =>
    match loadEntries global n rest st with
    | none => none
    | some (st1, ws1) =>
      match ws1 with
      | Word.u32 m :: rest2 => loadRemaps m rest2 { st1 with colorRemaps := [] }
      | _ => none
  | _ => none

/-! ### Association-list helper lemmas -/

theorem lookup_cons {β : Type} (p : ℕ × β) (t : List (ℕ × β)) (k : ℕ) :
    (p :: t).lookup k = if k = p.1 then some p.2 else t.lookup k := by
  by_cases h : k = p.1
  · simp [List.lookup, h]
  · have hb : (k == p.1) = false := beq_eq_false_iff_ne.mpr h
    simp [List.lookup, hb, h]

theorem lookup_eq_none_of_not_mem_keys {β : Type} {l : List (ℕ × β)} {k : ℕ}
    (h : k ∉ l.map Prod.fst) : l.lookup k = none := by
  induction l with
  | nil => rfl
  | cons p t ih =>
    simp only [List.map_cons, List.mem_cons, not_or] at h
    rw [lookup_cons, if_neg h.1]
    exact ih h.2

theorem not_mem_keys_of_lookup_eq_none {β : Type} {l : List (ℕ × β)} {k : ℕ}
    (h : l.lookup k = none) : k ∉ l.map Prod.fst := by
  induction l with
  | nil => simp
  | cons p t ih =>
    rw [lookup_cons] at h
    by_cases hk : k = p.1
    · rw [if_pos hk] at h
      exact absurd h (by simp)
    · rw [if_neg hk] at h
      simp only [List.map_cons, List.mem_cons, not_or]
      exact ⟨hk, ih h⟩

theorem mem_keys_of_lookup_isSome {β : Type} {l : List (ℕ × β)} {k : ℕ}
    (h : (l.lookup k).isSome = true) : k ∈ l.map Prod.fst := by
  by_contra hk
  rw [lookup_eq_none_of_not_mem_keys hk] at h
  simp at h

theorem lookup_isSome_of_mem_keys {β : Type} {l : List (ℕ × β)} {k : ℕ}
    (h : k ∈ l.map Prod.fst) : (l.lookup k).isSome = true := by
  cases he : l.lookup k with
  | some v => rfl
  | none => exact absurd h (not_mem_keys_of_lookup_eq_none he)

theorem lookup_append_fresh {β : Type} {l : List (ℕ × β)} {k : ℕ} (v : β)
    (h : l.lookup k = none) : (l ++ [(k, v)]).lookup k = some v := by
  induction l with
  | nil => simp [List.lookup]
  | cons p t ih =>
    rw [lookup_cons] at h
    rw [List.cons_append, lookup_cons]
    by_cases hk : k = p.1
    · rw [if_pos hk] at h
      exact absurd h (by simp)
    · rw [if_neg hk] at h ⊢
      exact ih h

theorem lookup_append_of_isSome {β : Type} {l1 l2 : List (ℕ × β)} {k : ℕ}
    (h : (l1.lookup k).isSome = true) : (l1 ++ l2).lookup k = l1.lookup k := by
  induction l1 with
  | nil => simp at h
  | cons p t ih =>
    rw [lookup_cons] at h
    rw [List.cons_append, lookup_cons, lookup_cons]
    by_cases hk : k = p.1
    · rw [if_pos hk, if_pos hk]
    · rw [if_neg hk] at h
      rw [if_neg hk, if_neg hk]
      exact ih h

theorem mem_of_lookup_eq_some {β : Type} {l : List (ℕ × β)} {k : ℕ} {v : β}
    (h : l.lookup k = some v) : (k, v) ∈ l := by
  induction l with
  | nil => simp [List.lookup] at h
  | cons p t ih =>
    rw [lookup_cons] at h
    by_cases hk : k = p.1
    · rw [if_pos hk] at h
      have hv : p.2 = v := by simpa using h
      exact List.mem_cons.mpr (Or.inl (by cases p; simp_all))
    · rw [if_neg hk] at h
      exact List.mem_cons_of_mem _ (ih h)

theorem lookup_of_mem_nodup {β : Type} {l : List (ℕ × β)} {k : ℕ} {v : β}
    (hm : (k, v) ∈ l) (hn : (l.map Prod.fst).Nodup) : l.lookup k = some v := by
  induction l with
  | nil => simp at hm
  | cons p t ih =>
    simp only [List.map_cons, List.nodup_cons] at hn
    rw [lookup_cons]
    rcases List.mem_cons.mp hm with he | ht
    · rw [if_pos (by rw [← he]), ← he]
    · have hk : k ≠ p.1 := by
        intro e
        exact hn.1 (e ▸ (List.mem_map.mpr ⟨(k, v), ht, rfl⟩))
      rw [if_neg hk]
      exact ih ht hn.2

theorem lookup_filter_ne {β : Type} {l : List (ℕ × β)} {k id : ℕ} (h : k ≠ id) :
    ((l.filter fun p => p.1 ≠ id).lookup k) = l.lookup k := by
  induction l with
  | nil => rfl
  | cons p t ih =>
    by_cases hp : p.1 = id
    · have hf : (p :: t).filter (fun q => q.1 ≠ id) = t.filter fun q => q.1 ≠ id := by
        simp [List.filter_cons, hp]
      rw [hf, ih, lookup_cons, if_neg (fun e => h (e.trans hp))]
    · have hf : (p :: t).filter (fun q => q.1 ≠ id) = p :: t.filter fun q => q.1 ≠ id := by
        simp [List.filter_cons, hp]
      rw [hf, lookup_cons, lookup_cons]
      by_cases hk : k = p.1
      · rw [if_pos hk, if_pos hk]
      · rw [if_neg hk, if_neg hk]
        exact ih

theorem lookup_filter_self {β : Type} (l : List (ℕ × β)) (id : ℕ) :
    ((l.filter fun p => p.1 ≠ id).lookup id) = none := by
  apply lookup_eq_none_of_not_mem_keys
  intro hm
  rcases List.mem_map.mp hm with ⟨p, hp, he⟩
  rcases List.mem_filter.mp hp with ⟨_, hne⟩
  have hne2 : p.1 ≠ id := by simpa using hne
  exact hne2 he

/-! ### C10: unremapColor clears the whole remap map -/

/-- C10: for every index `i` and area state, `unremapColor i` leaves the
color-remap map completely empty — the integer index is consumed as the
boolean shrink argument of the clear operation of the map, so every entry
is removed, not only the entry for `i`. -/
theorem unremapColor_clears_all : ∀ (st : AreaState) (index : ℤ),
    (unremapColor st index).colorRemaps = [] ∧
    ∀ j : ℕ, ((unremapColor st index).colorRemaps.lookup j) = none := by
  intro st index
  have he : (unremapColor st index).colorRemaps = [] := by
    unfold unremapColor hashMapClear
    cases intAsBool index <;> rfl
  exact ⟨he, fun j => by rw [he]; rfl⟩

/-! ### C8: addObject precondition and effect -/

/-- C8: `addObject` is a fatal precondition violation when the object id is
already in the objects map; when absent, it inserts the object into the
map, records the id in the added set, and prepends drawable objects to the
drawable-ordered view (so runtime-added drawables precede everything). -/
theorem addObject_spec : ∀ (st : AreaState) (obj : Obj),
    ((st.objectsByID.lookup obj.objectID).isSome = true → addObject st obj = none) ∧
    (st.objectsByID.lookup obj.objectID = none →
      ∃ st1, addObject st obj = some st1 ∧
        st1.objectsByID.lookup obj.objectID = some obj ∧
        st1.addedObjects.contains obj.objectID = true ∧
        (obj.drawable = true → st1.drawableObjects = obj :: st.drawableObjects) ∧
        (obj.drawable = false → st1.drawableObjects = st.drawableObjects)) := by
  intro st obj
  constructor
  · intro h
    unfold addObject
    rw [if_pos h]
  · intro h
    have hne : ¬ (st.objectsByID.lookup obj.objectID).isSome = true := by simp [h]
    unfold addObject
    rw [if_neg hne]
    refine ⟨_, rfl, ?_, ?_, ?_, ?_⟩
    · exact lookup_append_fresh obj h
    · by_cases hc : st.addedObjects.contains obj.objectID = true
      · rw [if_pos hc]
        exact hc
      · rw [if_neg hc]
        simp
    · intro hd
      simp [hd]
    · intro hd
      simp [hd]

/-! ### C4: sweepAABB totality, guarded division, sign filter, minimality -/

theorem planeStep_of_none (dc : Bool) (bt1 bt2 : ℚ → Bool) (n : Vec3) (cur : ℚ × Vec3) :
    planeStep dc none bt1 bt2 n cur = cur := rfl

theorem planeStep_of_false (s : Option ℚ) (bt1 bt2 : ℚ → Bool) (n : Vec3) (cur : ℚ × Vec3) :
    planeStep false s bt1 bt2 n cur = cur := by
  cases s with
  | none => rfl
  | some sv => simp [planeStep]

theorem planeStep_fst_le (dc : Bool) (s : Option ℚ) (bt1 bt2 : ℚ → Bool) (n : Vec3)
    (cur : ℚ × Vec3) : (planeStep dc s bt1 bt2 n cur).1 ≤ cur.1 := by
  cases s with
  | none => exact le_refl _
  | some sv =>
    simp only [planeStep]
    split
    · next hc =>
      simp only [Bool.and_eq_true, decide_eq_true_eq] at hc
      exact le_of_lt hc.1.1.2
    · exact le_refl _

theorem planeStep_fst_nonneg (dc : Bool) (s : Option ℚ) (bt1 bt2 : ℚ → Bool) (n : Vec3)
    (cur : ℚ × Vec3) (h : 0 ≤ cur.1) : 0 ≤ (planeStep dc s bt1 bt2 n cur).1 := by
  cases s with
  | none => exact h
  | some sv =>
    simp only [planeStep]
    split
    · next hc =>
      simp only [Bool.and_eq_true, decide_eq_true_eq] at hc
      exact hc.1.1.1.1
    · exact h

theorem planeStep_fst_le_cand (dc : Bool) (sv : ℚ) (bt1 bt2 : ℚ → Bool) (n : Vec3)
    (cur : ℚ × Vec3) (hd : dc = true) (h0 : 0 ≤ sv) (h1 : bt1 sv = true)
    (h2 : bt2 sv = true) : (planeStep dc (some sv) bt1 bt2 n cur).1 ≤ sv := by
  simp only [planeStep]
  split
  · exact le_refl _
  · next hc =>
    by_contra hlt
    push_neg at hlt
    exact hc (by simp [hd, h0, h1, h2, ge_iff_le, hlt])

theorem sweepFold_fst_le (l : List PlaneCand) (cur : ℚ × Vec3) :
    (l.foldl (fun c pc => planeStep pc.dcond pc.s pc.bt1 pc.bt2 pc.n c) cur).1 ≤ cur.1 := by
  induction l generalizing cur with
  | nil => exact le_refl _
  | cons pc t ih =>
    exact le_trans (ih _) (planeStep_fst_le _ _ _ _ _ _)

theorem sweepFold_fst_nonneg (l : List PlaneCand) (cur : ℚ × Vec3) (h : 0 ≤ cur.1) :
    0 ≤ (l.foldl (fun c pc => planeStep pc.dcond pc.s pc.bt1 pc.bt2 pc.n c) cur).1 := by
  induction l generalizing cur with
  | nil => exact h
  | cons pc t ih =>
    exact ih _ (planeStep_fst_nonneg _ _ _ _ _ _ h)

theorem sweepFold_fst_le_cand (l : List PlaneCand) (pc : PlaneCand) (sv : ℚ)
    (hs : pc.s = some sv) (hd : pc.dcond = true) (h0 : 0 ≤ sv)
    (h1 : pc.bt1 sv = true) (h2 : pc.bt2 sv = true) :
    ∀ cur : ℚ × Vec3, pc ∈ l →
      (l.foldl (fun c q => planeStep q.dcond q.s q.bt1 q.bt2 q.n c) cur).1 ≤ sv := by
  induction l with
  | nil =>
    intro cur hm
    simp at hm
  | cons q t ih =>
    intro cur hm
    rcases List.mem_cons.mp hm with he | ht
    · subst he
      simp only [List.foldl_cons]
      refine le_trans (sweepFold_fst_le _ _) ?_
      rw [hs]
      exact planeStep_fst_le_cand _ _ _ _ _ _ hd h0 h1 h2
    · exact ih _ ht

/-- C4: `sweepAABB` is total: the guarded division makes a zero
`normal · motion` denominator an infinite (`none`) plane intersection, an
infinite candidate never updates the running minimum, a plane whose sign
test fails is never considered, and the returned fraction is a minimum
non-negative candidate lying in `[0, 1]` (with `1.0` meaning no hit). -/
theorem sweepAABB_total : ∀ (a b : AABB) (direction : Vec3),
    0 ≤ (sweepAABB a b direction).1 ∧ (sweepAABB a b direction).1 ≤ 1 ∧
    (∀ p u v n : Vec3, n.dotProduct u = 0 ↔ lineToPlane p u v n = none) ∧
    (∀ (dc : Bool) (bt1 bt2 : ℚ → Bool) (n : Vec3) (cur : ℚ × Vec3),
      planeStep dc none bt1 bt2 n cur = cur) ∧
    (∀ (s : Option ℚ) (bt1 bt2 : ℚ → Bool) (n : Vec3) (cur : ℚ × Vec3),
      planeStep false s bt1 bt2 n cur = cur) ∧
    (∀ pc ∈ planes a b direction, ∀ sv : ℚ, pc.s = some sv → pc.dcond = true →
      0 ≤ sv → pc.bt1 sv = true → pc.bt2 sv = true → (sweepAABB a b direction).1 ≤ sv) := by
  intro a b direction
  refine ⟨sweepFold_fst_nonneg _ _ (by norm_num), sweepFold_fst_le _ _, ?_, ?_, ?_, ?_⟩
  · intro p u v n
    unfold lineToPlane
    constructor
    · intro h
      simp [h]
    · intro h
      by_contra hne
      rw [if_neg hne] at h
      exact absurd h (by simp)
  · exact planeStep_of_none
  · exact planeStep_of_false
  · intro pc hm sv hs hd h0 h1 h2
    exact sweepFold_fst_le_cand _ pc sv hs hd h0 h1 h2 _ hm

/-! ### C3: an unobstructed motion returns the desired position unchanged -/

theorem vec_advance_full (a b : Vec3) :
    a + (1 : ℚ) • (b - a) + epsilon • Vec3.zero = b := by
  cases a
  cases b
  simp only [Vec3.add_def, Vec3.sub_def, Vec3.smul_def, Vec3.zero, epsilon, Vec3.mk.injEq]
  refine ⟨by ring, by ring, by ring⟩

theorem collisionStep_of_no_hit (bb : AABB) (dir : Vec3) (o : Obj)
    (h : o.destroyed = false → o.invisible = false →
      (sweepAABB bb o.boundingBox dir).1 = 1) :
    collisionStep bb dir (1, Vec3.zero) o = (1, Vec3.zero) := by
  unfold collisionStep
  by_cases hq : (!o.destroyed && !o.invisible) = true
  · simp only [Bool.and_eq_true, Bool.not_eq_true'] at hq
    have h1 : (sweepAABB bb o.boundingBox dir).1 = 1 := h hq.1 hq.2
    have hnlt : ¬ (sweepAABB bb o.boundingBox dir).1 < (1 : ℚ) := by
      rw [h1]
      exact lt_irrefl 1
    simp only [hq.1, hq.2, Bool.not_false, Bool.and_self, if_true]
    rw [if_neg hnlt]
  · rw [if_neg hq]

theorem collisionSweep_of_no_hit (objs : List Obj) (bb : AABB) (dir : Vec3)
    (h : ∀ o ∈ objs, o.destroyed = false → o.invisible = false →
      (sweepAABB bb o.boundingBox dir).1 = 1) :
    collisionSweep objs bb dir = (1, Vec3.zero) := by
  unfold collisionSweep
  induction objs with
  | nil => rfl
  | cons o t ih =>
    rw [List.foldl_cons, collisionStep_of_no_hit bb dir o (h o (List.mem_cons_self o t))]
    exact ih fun o2 hm => h o2 (List.mem_cons_of_mem _ hm)

/-- C3: when the swept player box from `lastPosition` toward the desired
position reaches sweep fraction `1.0` against every non-destroyed,
non-invisible drawable object, `resolveCollisions` returns the desired
position unchanged in a single pass, with no epsilon push applied. -/
theorem resolveCollisions_unobstructed : ∀ (objs : List Obj)
    (lastPosition desiredPosition : Vec3) (playerHeight : ℚ),
    (∀ o ∈ objs, o.destroyed = false → o.invisible = false →
      (sweepAABB (createPlayerAABB lastPosition playerHeight) o.boundingBox
        (desiredPosition - lastPosition)).1 = 1) →
    resolveCollisionsTraced objs lastPosition desiredPosition playerHeight =
      (ResolveResult.ok desiredPosition, 1) := by
  intro objs last desired ph h
  unfold resolveCollisionsTraced
  simp only [resolveLoop]
  rw [collisionSweep_of_no_hit objs (createPlayerAABB last ph) (desired - last) h]
  rw [if_pos (le_refl (1 : ℚ))]
  rw [vec_advance_full]

/-- Witness for C3 at a concrete input: the empty object list obstructs
nothing, and the desired position comes back unchanged. -/
theorem resolveCollisions_unobstructed_witness :
    resolveCollisionsTraced [] ⟨0, 0, 0⟩ ⟨5, 4, 3⟩ 2 =
      (ResolveResult.ok ⟨5, 4, 3⟩, 1) :=
  resolveCollisions_unobstructed [] ⟨0, 0, 0⟩ ⟨5, 4, 3⟩ 2 (by simp)

/-! ### C1: the resolver always returns or hits the fatal assertion within
six passes -/

theorem resolveLoop_count : ∀ (fuel : ℕ) (objs : List Obj) (bb : AABB)
    (last pos : Vec3),
    (resolveLoop objs bb last fuel pos).2 ≤ fuel + 1 ∧
    ((resolveLoop objs bb last fuel pos).1 = ResolveResult.fatalAssert →
      (resolveLoop objs bb last fuel pos).2 = fuel + 1) := by
  intro fuel
  induction fuel with
  | zero =>
    intro objs bb last pos
    simp only [resolveLoop]
    split
    · exact ⟨le_refl 1, by intro h; simp at h⟩
    · exact ⟨le_refl 1, fun _ => rfl⟩
  | succ f ih =>
    intro objs bb last pos
    simp only [resolveLoop]
    split
    · exact ⟨by omega, by intro h; simp at h⟩
    · constructor
      · have hh := (ih objs bb last
          (last + (collisionSweep objs bb (pos - last)).1 • (pos - last) +
            epsilon • (collisionSweep objs bb (pos - last)).2)).1
        omega
      · intro h
        have hh := (ih objs bb last
          (last + (collisionSweep objs bb (pos - last)).1 • (pos - last) +
            epsilon • (collisionSweep objs bb (pos - last)).2)).2 h
        omega

/-- C1: `resolveCollisions` always terminates: it runs at most six sweep
passes, each pass either consumes the full motion (`h >= 1.0`) and returns
or retries, at most five retries follow blocked passes, and a sixth blocked
pass ends in the fatal assertion instead of returning a position. -/
theorem resolveCollisions_terminates : ∀ (objs : List Obj)
    (lastPosition newPosition : Vec3) (playerHeight : ℚ),
    (resolveCollisionsTraced objs lastPosition newPosition playerHeight).2 ≤ 6 ∧
    ((resolveCollisionsTraced objs lastPosition newPosition playerHeight).1 =
        ResolveResult.fatalAssert →
      (resolveCollisionsTraced objs lastPosition newPosition playerHeight).2 = 6) ∧
    ((∃ p, (resolveCollisionsTraced objs lastPosition newPosition playerHeight).1 =
        ResolveResult.ok p) ∨
      (resolveCollisionsTraced objs lastPosition newPosition playerHeight).1 =
        ResolveResult.fatalAssert) := by
  intro objs last new ph
  have h := resolveLoop_count 5 objs (createPlayerAABB last ph) last new
  refine ⟨h.1, h.2, ?_⟩
  cases hr : (resolveCollisionsTraced objs last new ph).1 with
  | ok p => exact Or.inl ⟨p, rfl⟩
  | fatalAssert => exact Or.inr rfl

/-! ### C2: what a blocked pass feeds into the next pass -/

/-- A wall object blocking motion along the positive x axis, used to
separate the resolver loop of the source from the loop the claim words
describe. -/
def wallObj : Obj :=
  { objectID := 7
    objType := ObjType.cube
    flags := 0
    origin := ⟨4, -10, -10⟩
    size := ⟨2, 20, 20⟩
    destroyed := false
    invisible := false
    drawable := true
    planar := false
    boundingBox := ⟨⟨4, -10, -10⟩, ⟨6, 10, 10⟩, true⟩ }

theorem resolveLoop_step_when_blocked (objs : List Obj) (bb : AABB)
    (last pos : Vec3) (fuel : ℕ)
    (h : (collisionSweep objs bb (pos - last)).1 < 1) :
    resolveLoop objs bb last (fuel + 1) pos =
      ((resolveLoop objs bb last fuel
          (last + (collisionSweep objs bb (pos - last)).1 • (pos - last) +
            epsilon • (collisionSweep objs bb (pos - last)).2)).1,
        (resolveLoop objs bb last fuel
          (last + (collisionSweep objs bb (pos - last)).1 • (pos - last) +
            epsilon • (collisionSweep objs bb (pos - last)).2)).2 + 1) := by
  simp only [resolveLoop]
  rw [if_neg (not_le.mpr h)]

theorem resolveLoop_done_step (objs : List Obj) (bb : AABB) (last pos : Vec3)
    (fuel : ℕ) (h : (collisionSweep objs bb (pos - last)).1 ≥ 1) :
    resolveLoop objs bb last fuel pos =
      (ResolveResult.ok
        (last + (collisionSweep objs bb (pos - last)).1 • (pos - last) +
          epsilon • (collisionSweep objs bb (pos - last)).2), 1) := by
  cases fuel with
  | zero =>
    simp only [resolveLoop]
    rw [if_pos h]
  | succ f =>
    simp only [resolveLoop]
    rw [if_pos h]

theorem resolveLoopClaim_blocked_step (objs : List Obj) (bb : AABB)
    (desired last : Vec3) (fuel : ℕ)
    (h : (collisionSweep objs bb (desired - last)).1 < 1) :
    resolveLoopClaim objs bb desired (fuel + 1) last =
      resolveLoopClaim objs bb desired fuel
        (last + (collisionSweep objs bb (desired - last)).1 • (desired - last) +
          epsilon • (collisionSweep objs bb (desired - last)).2) := by
  simp only [resolveLoopClaim]
  rw [if_neg (not_le.mpr h)]

theorem resolveLoopClaim_done_step (objs : List Obj) (bb : AABB)
    (desired last : Vec3) (fuel : ℕ)
    (h : (collisionSweep objs bb (desired - last)).1 ≥ 1) :
    resolveLoopClaim objs bb desired fuel last =
      ResolveResult.ok
        (last + (collisionSweep objs bb (desired - last)).1 • (desired - last) +
          epsilon • (collisionSweep objs bb (desired - last)).2) := by
  cases fuel with
  | zero =>
    simp only [resolveLoopClaim]
    rw [if_pos h]
  | succ f =>
    simp only [resolveLoopClaim]
    rw [if_pos h]

theorem wall_sweep_blocked :
    collisionSweep [wallObj] (createPlayerAABB ⟨0, 0, 0⟩ 1)
        ((⟨10, 0, 0⟩ : Vec3) - ⟨0, 0, 0⟩) = (3 / 10, ⟨-1, 0, 0⟩) := by
  norm_num [collisionSweep, collisionStep, sweepAABB, planes, planeStep, lineToPlane,
    between, Vec3.dotProduct, Vec3.zero, Vec3.sub_def, Vec3.add_def, AABB.getSize,
    wallObj, createPlayerAABB]

/-- Counterexample to C2 as stated: with a single wall in front of the
motion, the source resolver (which keeps the original `lastPosition` as the
sweep reference and makes the advanced position the new target) stops at
the wall, while the loop the claim describes (advanced position becomes the
updated "last", the original desired position stays the target) walks
through the wall and returns the desired position: the two differ. -/
theorem resolveCollisions_claim_counterexample :
    resolveCollisions [wallObj] ⟨0, 0, 0⟩ ⟨10, 0, 0⟩ 1 =
        ResolveResult.ok ⟨3 / 2, 0, 0⟩ ∧
    resolveCollisionsClaim [wallObj] ⟨0, 0, 0⟩ ⟨10, 0, 0⟩ 1 =
        ResolveResult.ok ⟨10, 0, 0⟩ ∧
    resolveCollisions [wallObj] ⟨0, 0, 0⟩ ⟨10, 0, 0⟩ 1 ≠
      resolveCollisionsClaim [wallObj] ⟨0, 0, 0⟩ ⟨10, 0, 0⟩ 1 := by
  have hcode : resolveCollisions [wallObj] ⟨0, 0, 0⟩ ⟨10, 0, 0⟩ 1 =
      ResolveResult.ok ⟨3 / 2, 0, 0⟩ := by
    show (resolveLoop [wallObj] (createPlayerAABB ⟨0, 0, 0⟩ 1) ⟨0, 0, 0⟩ 5
      ⟨10, 0, 0⟩).1 = ResolveResult.ok ⟨3 / 2, 0, 0⟩
    rw [show (5 : ℕ) = 4 + 1 from rfl,
      resolveLoop_step_when_blocked [wallObj] _ ⟨0, 0, 0⟩ ⟨10, 0, 0⟩ 4
        (by rw [wall_sweep_blocked]; norm_num)]
    rw [wall_sweep_blocked]
    have hadv : (⟨0, 0, 0⟩ : Vec3) + (3 / 10 : ℚ) • ((⟨10, 0, 0⟩ : Vec3) - ⟨0, 0, 0⟩) +
        epsilon • (⟨-1, 0, 0⟩ : Vec3) = ⟨3 / 2, 0, 0⟩ := by
      norm_num [Vec3.add_def, Vec3.sub_def, Vec3.smul_def, epsilon]
    rw [hadv]
    have hs2 : collisionSweep [wallObj] (createPlayerAABB ⟨0, 0, 0⟩ 1)
        ((⟨3 / 2, 0, 0⟩ : Vec3) - ⟨0, 0, 0⟩) = (1, Vec3.zero) := by
      norm_num [collisionSweep, collisionStep, sweepAABB, planes, planeStep,
        lineToPlane, between, Vec3.dotProduct, Vec3.zero, Vec3.sub_def, Vec3.add_def,
        AABB.getSize, wallObj, createPlayerAABB]
    rw [resolveLoop_done_step [wallObj] _ ⟨0, 0, 0⟩ ⟨3 / 2, 0, 0⟩ 4
      (by rw [hs2])]
    rw [hs2]
    norm_num [Vec3.add_def, Vec3.sub_def, Vec3.smul_def, Vec3.zero, epsilon]
  have hclaim : resolveCollisionsClaim [wallObj] ⟨0, 0, 0⟩ ⟨10, 0, 0⟩ 1 =
      ResolveResult.ok ⟨10, 0, 0⟩ := by
    show resolveLoopClaim [wallObj] (createPlayerAABB ⟨0, 0, 0⟩ 1) ⟨10, 0, 0⟩ 5
      ⟨0, 0, 0⟩ = ResolveResult.ok ⟨10, 0, 0⟩
    have step : ∀ last2 : Vec3, ∀ d : ℚ, ∀ fuel : ℕ,
        collisionSweep [wallObj] (createPlayerAABB ⟨0, 0, 0⟩ 1)
          ((⟨10, 0, 0⟩ : Vec3) - last2) = (d, ⟨-1, 0, 0⟩) → d < 1 →
        ∀ next : Vec3,
          last2 + d • ((⟨10, 0, 0⟩ : Vec3) - last2) + epsilon • (⟨-1, 0, 0⟩ : Vec3) =
            next →
        resolveLoopClaim [wallObj] (createPlayerAABB ⟨0, 0, 0⟩ 1) ⟨10, 0, 0⟩
            (fuel + 1) last2 =
          resolveLoopClaim [wallObj] (createPlayerAABB ⟨0, 0, 0⟩ 1) ⟨10, 0, 0⟩ fuel
            next := by
      intro last2 d fuel hsweep hlt next hnext
      rw [resolveLoopClaim_blocked_step [wallObj] _ ⟨10, 0, 0⟩ last2 fuel
        (by rw [hsweep]; exact hlt)]
      rw [hsweep, hnext]
    rw [step ⟨0, 0, 0⟩ (3 / 10) 4 wall_sweep_blocked (by norm_num) ⟨3 / 2, 0, 0⟩
      (by norm_num [Vec3.add_def, Vec3.sub_def, Vec3.smul_def, epsilon])]
    rw [step ⟨3 / 2, 0, 0⟩ (6 / 17) 3
      (by norm_num [collisionSweep, collisionStep, sweepAABB, planes, planeStep,
        lineToPlane, between, Vec3.dotProduct, Vec3.zero, Vec3.sub_def, Vec3.add_def,
        AABB.getSize, wallObj, createPlayerAABB])
      (by norm_num) ⟨3, 0, 0⟩
      (by norm_num [Vec3.add_def, Vec3.sub_def, Vec3.smul_def, epsilon])]
    rw [step ⟨3, 0, 0⟩ (3 / 7) 2
      (by norm_num [collisionSweep, collisionStep, sweepAABB, planes, planeStep,
        lineToPlane, between, Vec3.dotProduct, Vec3.zero, Vec3.sub_def, Vec3.add_def,
        AABB.getSize, wallObj, createPlayerAABB])
      (by norm_num) ⟨9 / 2, 0, 0⟩
      (by norm_num [Vec3.add_def, Vec3.sub_def, Vec3.smul_def, epsilon])]
    rw [step ⟨9 / 2, 0, 0⟩ (6 / 11) 1
      (by norm_num [collisionSweep, collisionStep, sweepAABB, planes, planeStep,
        lineToPlane, between, Vec3.dotProduct, Vec3.zero, Vec3.sub_def, Vec3.add_def,
        AABB.getSize, wallObj, createPlayerAABB])
      (by norm_num) ⟨6, 0, 0⟩
      (by norm_num [Vec3.add_def, Vec3.sub_def, Vec3.smul_def, epsilon])]
    rw [step ⟨6, 0, 0⟩ (3 / 4) 0
      (by norm_num [collisionSweep, collisionStep, sweepAABB, planes, planeStep,
        lineToPlane, between, Vec3.dotProduct, Vec3.zero, Vec3.sub_def, Vec3.add_def,
        AABB.getSize, wallObj, createPlayerAABB])
      (by norm_num) ⟨15 / 2, 0, 0⟩
      (by norm_num [Vec3.add_def, Vec3.sub_def, Vec3.smul_def, epsilon])]
    have hs6 : collisionSweep [wallObj] (createPlayerAABB ⟨0, 0, 0⟩ 1)
        ((⟨10, 0, 0⟩ : Vec3) - ⟨15 / 2, 0, 0⟩) = (1, Vec3.zero) := by
      norm_num [collisionSweep, collisionStep, sweepAABB, planes, planeStep,
        lineToPlane, between, Vec3.dotProduct, Vec3.zero, Vec3.sub_def, Vec3.add_def,
        AABB.getSize, wallObj, createPlayerAABB]
    rw [resolveLoopClaim_done_step [wallObj] _ ⟨10, 0, 0⟩ ⟨15 / 2, 0, 0⟩ 0
      (by rw [hs6])]
    rw [hs6]
    norm_num [Vec3.add_def, Vec3.sub_def, Vec3.smul_def, Vec3.zero, epsilon]
  refine ⟨hcode, hclaim, ?_⟩
  rw [hcode, hclaim]
  intro hcontra
  have hv : (⟨3 / 2, 0, 0⟩ : Vec3) = ⟨10, 0, 0⟩ := ResolveResult.ok.inj hcontra
  have hx : (3 / 2 : ℚ) = 10 := congrArg Vec3.x hv
  norm_num at hx

/-- C2 (amended): after a blocked pass (minimum sweep fraction `h < 1.0`)
the position is advanced to `last + h * motion + epsilon * normal` with
`epsilon = 1.5`, and the next pass repeats the sweep keeping the original
`lastPosition` as the "last" reference with the advanced position as the
new target (not the original desired position). -/
theorem resolveLoop_blocked_step : ∀ (objs : List Obj) (bb : AABB)
    (last pos : Vec3) (fuel : ℕ),
    (collisionSweep objs bb (pos - last)).1 < 1 →
    resolveLoop objs bb last (fuel + 1) pos =
      ((resolveLoop objs bb last fuel
          (last + (collisionSweep objs bb (pos - last)).1 • (pos - last) +
            epsilon • (collisionSweep objs bb (pos - last)).2)).1,
        (resolveLoop objs bb last fuel
          (last + (collisionSweep objs bb (pos - last)).1 • (pos - last) +
            epsilon • (collisionSweep objs bb (pos - last)).2)).2 + 1) := by
  intro objs bb last pos fuel h
  exact resolveLoop_step_when_blocked objs bb last pos fuel h

/-- Witness for the amended C2 at a concrete blocked pass: the wall blocks
the first pass, and the second pass keeps the original last reference with
the advanced position as its target. -/
theorem resolveLoop_blocked_step_witness :
    (collisionSweep [wallObj] (createPlayerAABB ⟨0, 0, 0⟩ 1)
        ((⟨10, 0, 0⟩ : Vec3) - ⟨0, 0, 0⟩)).1 < 1 ∧
    resolveLoop [wallObj] (createPlayerAABB ⟨0, 0, 0⟩ 1) ⟨0, 0, 0⟩ 5 ⟨10, 0, 0⟩ =
      ((resolveLoop [wallObj] (createPlayerAABB ⟨0, 0, 0⟩ 1) ⟨0, 0, 0⟩ 4
          ((⟨0, 0, 0⟩ : Vec3) +
            (collisionSweep [wallObj] (createPlayerAABB ⟨0, 0, 0⟩ 1)
                ((⟨10, 0, 0⟩ : Vec3) - ⟨0, 0, 0⟩)).1 •
              ((⟨10, 0, 0⟩ : Vec3) - ⟨0, 0, 0⟩) +
            epsilon •
              (collisionSweep [wallObj] (createPlayerAABB ⟨0, 0, 0⟩ 1)
                ((⟨10, 0, 0⟩ : Vec3) - ⟨0, 0, 0⟩)).2)).1,
        (resolveLoop [wallObj] (createPlayerAABB ⟨0, 0, 0⟩ 1) ⟨0, 0, 0⟩ 4
          ((⟨0, 0, 0⟩ : Vec3) +
            (collisionSweep [wallObj] (createPlayerAABB ⟨0, 0, 0⟩ 1)
                ((⟨10, 0, 0⟩ : Vec3) - ⟨0, 0, 0⟩)).1 •
              ((⟨10, 0, 0⟩ : Vec3) - ⟨0, 0, 0⟩) +
            epsilon •
              (collisionSweep [wallObj] (createPlayerAABB ⟨0, 0, 0⟩ 1)
                ((⟨10, 0, 0⟩ : Vec3) - ⟨0, 0, 0⟩)).2)).2 + 1) :=
  ⟨by rw [wall_sweep_blocked]; norm_num,
    resolveLoop_blocked_step [wallObj] _ ⟨0, 0, 0⟩ ⟨10, 0, 0⟩ 4
      (by rw [wall_sweep_blocked]; norm_num)⟩

/-! ### C6: checkInSight samples nine probe cubes along the ray -/

theorem mem_sightMultipliers (k : ℕ) : k ∈ sightMultipliers ↔ 2 ≤ k ∧ k ≤ 10 := by
  simp only [sightMultipliers, List.mem_cons, List.not_mem_nil, or_false]
  omega

theorem sample_point_arith (k : ℕ) (m : ℚ) :
    (k : ℚ) * (m / 10) = (k : ℚ) / 10 * m := by ring

/-- C6: `checkInSight` places a probe cube of side `maxDistance / 30` at
exactly nine sample points, 20%, 30%, ..., 100% of `maxDistance` along the
normalized ray direction, and returns `false` exactly when at some sample a
drawable object that is no sensor, not destroyed, not invisible and has a
valid bounding box collides with the probe cube. -/
theorem checkInSight_nine_samples : ∀ (objs : List Obj)
    (rayOrigin unitDirection : Vec3) (maxDistance : ℚ),
    checkInSight objs rayOrigin unitDirection maxDistance = false ↔
      ∃ k : ℕ, 2 ≤ k ∧ k ≤ 10 ∧ ∃ o ∈ objs,
        o.objType ≠ ObjType.sensor ∧ o.destroyed = false ∧ o.invisible = false ∧
        o.boundingBox.valid = true ∧
        aabbOverlap
          (probeCube (rayOrigin + (((k : ℚ) / 10) * maxDistance) • unitDirection)
            (maxDistance / 30)) o.boundingBox = true := by
  intro objs rayOrigin unitDirection maxDistance
  constructor
  · intro h
    unfold checkInSight at h
    rw [Bool.not_eq_false'] at h
    rcases List.any_eq_true.mp h with ⟨k, hk, hblocked⟩
    rcases List.any_eq_true.mp hblocked with ⟨ob, hob, hcond⟩
    simp only [Bool.and_eq_true, decide_eq_true_eq, Bool.not_eq_true'] at hcond
    obtain ⟨⟨⟨⟨hsens, hdest⟩, hinv⟩, hvalid⟩, hover⟩ := hcond
    have hb := (mem_sightMultipliers k).mp hk
    refine ⟨k, hb.1, hb.2, ob, hob, hsens, hdest, hinv, hvalid, ?_⟩
    rw [← sample_point_arith]
    exact hover
  · rintro ⟨k, h2, h10, ob, hob, hsens, hdest, hinv, hvalid, hover⟩
    unfold checkInSight
    rw [Bool.not_eq_false']
    apply List.any_eq_true.mpr
    refine ⟨k, (mem_sightMultipliers k).mpr ⟨h2, h10⟩, ?_⟩
    apply List.any_eq_true.mpr
    refine ⟨ob, hob, ?_⟩
    simp only [Bool.and_eq_true, decide_eq_true_eq, Bool.not_eq_true']
    rw [sample_point_arith]
    exact ⟨⟨⟨⟨hsens, hdest⟩, hinv⟩, hvalid⟩, hover⟩

/-! ### C5: shootRay returns the smallest qualifying candidate, ties to the
last in iteration order -/

theorem shootGuard_iff (r : Ray) (o : Obj) (c : ℚ) :
    (!o.destroyed && !o.invisible && o.boundingBox.valid &&
      rayIntersectAABB r o.boundingBox && decide (sizeSq o ≤ c)) = true ↔
    shootQualWithin r o c := by
  simp [shootQualWithin, Bool.and_eq_true, Bool.not_eq_true', decide_eq_true_eq,
    and_assoc]

theorem shootQualWithin_mono {r : Ray} {o : Obj} {c c2 : ℚ}
    (h : shootQualWithin r o c) (hc : c ≤ c2) : shootQualWithin r o c2 :=
  ⟨h.1, h.2.1, h.2.2.1, h.2.2.2.1, le_trans h.2.2.2.2 hc⟩

theorem shootRayLoop_some_ne_none (r : Ray) : ∀ (objs : List Obj) (b : Obj) (c : ℚ),
    shootRayLoop r objs (some b) c ≠ none := by
  intro objs
  induction objs with
  | nil =>
    intro b c h
    simp [shootRayLoop] at h
  | cons o t ih =>
    intro b c
    simp only [shootRayLoop]
    split
    · exact ih o (sizeSq o)
    · exact ih b c

theorem shootRayLoop_none_iff (r : Ray) : ∀ (objs : List Obj) (c : ℚ),
    shootRayLoop r objs none c = none ↔ ∀ o ∈ objs, ¬ shootQualWithin r o c := by
  intro objs
  induction objs with
  | nil =>
    intro c
    simp [shootRayLoop]
  | cons o t ih =>
    intro c
    simp only [shootRayLoop]
    by_cases hg : (!o.destroyed && !o.invisible && o.boundingBox.valid &&
        rayIntersectAABB r o.boundingBox && decide (sizeSq o ≤ c)) = true
    · rw [if_pos hg]
      constructor
      · intro h
        exact absurd h (shootRayLoop_some_ne_none r t o (sizeSq o))
      · intro h
        exact absurd ((shootGuard_iff r o c).mp hg) (h o (List.mem_cons_self o t))
    · rw [if_neg hg]
      rw [ih c, List.forall_mem_cons]
      constructor
      · intro h
        exact ⟨fun hq => hg ((shootGuard_iff r o c).mpr hq), h⟩
      · intro h
        exact h.2

theorem shootRayLoop_qual_min (r : Ray) : ∀ (objs : List Obj) (best : Option Obj)
    (c : ℚ) (o : Obj),
    (∀ b, best = some b → sizeSq b = c ∧ shootQualWithin r b maxShootSizeSq) →
    c ≤ maxShootSizeSq →
    shootRayLoop r objs best c = some o →
    shootQualWithin r o maxShootSizeSq ∧ sizeSq o ≤ c ∧
      ∀ o2 ∈ objs, shootQualWithin r o2 maxShootSizeSq → sizeSq o ≤ sizeSq o2 := by
  intro objs
  induction objs with
  | nil =>
    intro best c o hinv hc h
    simp only [shootRayLoop] at h
    obtain ⟨h1, h2⟩ := hinv o h
    exact ⟨h2, le_of_eq h1, fun o2 hm => absurd hm (List.not_mem_nil o2)⟩
  | cons ohead t ih =>
    intro best c o hinv hc h
    simp only [shootRayLoop] at h
    by_cases hg : (!ohead.destroyed && !ohead.invisible && ohead.boundingBox.valid &&
        rayIntersectAABB r ohead.boundingBox && decide (sizeSq ohead ≤ c)) = true
    · rw [if_pos hg] at h
      have hq := (shootGuard_iff r ohead c).mp hg
      have hres := ih (some ohead) (sizeSq ohead) o
        (fun b hb => by
          have he : ohead = b := Option.some.inj hb
          subst he
          exact ⟨rfl, shootQualWithin_mono hq hc⟩)
        (le_trans hq.2.2.2.2 hc) h
      refine ⟨hres.1, le_trans hres.2.1 hq.2.2.2.2, ?_⟩
      intro o2 hm hq2
      rcases List.mem_cons.mp hm with he | ht
      · rw [he]
        exact hres.2.1
      · exact hres.2.2 o2 ht hq2
    · rw [if_neg hg] at h
      have hres := ih best c o hinv hc h
      refine ⟨hres.1, hres.2.1, ?_⟩
      intro o2 hm hq2
      rcases List.mem_cons.mp hm with he | ht
      · subst he
        have hnotc : ¬ sizeSq o2 ≤ c := fun hle =>
          hg ((shootGuard_iff r o2 c).mpr
            ⟨hq2.1, hq2.2.1, hq2.2.2.1, hq2.2.2.2.1, hle⟩)
        exact le_of_lt (lt_of_le_of_lt hres.2.1 (not_le.mp hnotc))
      · exact hres.2.2 o2 ht hq2

theorem shootRayLoop_last_wins (r : Ray) : ∀ (objs : List Obj) (best : Option Obj)
    (c : ℚ) (o : Obj),
    shootRayLoop r objs best c = some o →
    (best = some o ∧ ∀ o2 ∈ objs, ¬ shootQualWithin r o2 c) ∨
    (∃ l1 l2, objs = l1 ++ o :: l2 ∧
      ∀ o2 ∈ l2, ¬ shootQualWithin r o2 (sizeSq o)) := by
  intro objs
  induction objs with
  | nil =>
    intro best c o h
    simp only [shootRayLoop] at h
    exact Or.inl ⟨h, fun o2 hm => absurd hm (List.not_mem_nil o2)⟩
  | cons ohead t ih =>
    intro best c o h
    simp only [shootRayLoop] at h
    by_cases hg : (!ohead.destroyed && !ohead.invisible && ohead.boundingBox.valid &&
        rayIntersectAABB r ohead.boundingBox && decide (sizeSq ohead ≤ c)) = true
    · rw [if_pos hg] at h
      rcases ih (some ohead) (sizeSq ohead) o h with ⟨hbo, hall⟩ | ⟨l1, l2, hsplit, hafter⟩
      · have he : ohead = o := Option.some.inj hbo
        subst he
        right
        refine ⟨[], t, rfl, ?_⟩
        exact hall
      · right
        exact ⟨ohead :: l1, l2, by rw [hsplit, List.cons_append], hafter⟩
    · rw [if_neg hg] at h
      rcases ih best c o h with ⟨hbo, hall⟩ | ⟨l1, l2, hsplit, hafter⟩
      · left
        refine ⟨hbo, ?_⟩
        intro o2 hm
        rcases List.mem_cons.mp hm with he | ht
        · subst he
          intro hq
          exact hg ((shootGuard_iff r o2 c).mpr hq)
        · exact hall o2 ht
      · right
        exact ⟨ohead :: l1, l2, by rw [hsplit, List.cons_append], hafter⟩

/-- C5 (amended): `shootRay` returns `none` exactly when no candidate
qualifies, where a candidate qualifies when it is not destroyed, not
invisible, has a valid bounding box intersected by the ray, and its extent
size does not exceed the initial cutoff `16.0 * 8192.0`; among qualifying
candidates one of smallest extent size is returned, with ties broken by
iteration order so that the last qualifying candidate of that size wins. -/
theorem shootRay_smallest_last : ∀ (r : Ray) (objs : List Obj),
    (shootRay objs r = none ↔ ∀ o ∈ objs, ¬ shootQual r o) ∧
    (∀ o, shootRay objs r = some o →
      shootQual r o ∧
      (∀ o2 ∈ objs, shootQual r o2 → sizeSq o ≤ sizeSq o2) ∧
      ∃ l1 l2, objs = l1 ++ o :: l2 ∧
        ∀ o2 ∈ l2, shootQual r o2 → sizeSq o < sizeSq o2) := by
  intro r objs
  constructor
  · exact shootRayLoop_none_iff r objs maxShootSizeSq
  · intro o h
    have h2 := shootRayLoop_qual_min r objs none maxShootSizeSq o
      (fun b hb => by simp at hb) (le_refl _) h
    have h3 := shootRayLoop_last_wins r objs none maxShootSizeSq o h
    rcases h3 with ⟨hbo, _⟩ | ⟨l1, l2, hsplit, hafter⟩
    · exact absurd hbo (by simp)
    · refine ⟨h2.1, fun o2 hm hq => h2.2.2 o2 hm hq, l1, l2, hsplit, ?_⟩
      intro o2 hm2 hq2
      by_contra hle
      push_neg at hle
      exact hafter o2 hm2 ⟨hq2.1, hq2.2.1, hq2.2.2.1, hq2.2.2.2.1, hle⟩

/-- The probe ray of the C5 counterexample, along the positive x axis. -/
def rayX : Ray := ⟨⟨0, 0, 0⟩, ⟨1, 0, 0⟩⟩

/-- First equal-size target pierced by `rayX`. -/
def targetA : Obj :=
  { objectID := 1
    objType := ObjType.cube
    flags := 0
    origin := ⟨2, -1, -1⟩
    size := ⟨1, 2, 2⟩
    destroyed := false
    invisible := false
    drawable := true
    planar := false
    boundingBox := ⟨⟨2, -1, -1⟩, ⟨3, 1, 1⟩, true⟩ }

/-- Second equal-size target pierced by `rayX`, later in iteration order. -/
def targetB : Obj :=
  { objectID := 2
    objType := ObjType.cube
    flags := 0
    origin := ⟨2, -1, -1⟩
    size := ⟨1, 2, 2⟩
    destroyed := false
    invisible := false
    drawable := true
    planar := false
    boundingBox := ⟨⟨2, -1, -1⟩, ⟨3, 1, 1⟩, true⟩ }

/-- Counterexample to C5 as stated: two qualifying candidates of equal size
are both pierced by the same ray, and `shootRay` returns the second one —
the guard `size >= objSize` lets a later candidate of equal size replace
the earlier one, so ties go to the last qualifying candidate, not the
first. -/
theorem shootRay_first_wins_counterexample :
    shootQual rayX targetA ∧ shootQual rayX targetB ∧
    sizeSq targetA = sizeSq targetB ∧
    shootRay [targetA, targetB] rayX = some targetB ∧
    targetB ≠ targetA := by
  refine ⟨?_, ?_, by norm_num [sizeSq, targetA, targetB], ?_, ?_⟩
  · norm_num [shootQual, shootQualWithin, rayIntersectAABB, axisParallelOK, axisIv,
      maxLo, hiOK, sizeSq, maxShootSizeSq, targetA, rayX]
  · norm_num [shootQual, shootQualWithin, rayIntersectAABB, axisParallelOK, axisIv,
      maxLo, hiOK, sizeSq, maxShootSizeSq, targetB, rayX]
  · norm_num [shootRay, shootRayLoop, rayIntersectAABB, axisParallelOK, axisIv,
      maxLo, hiOK, sizeSq, maxShootSizeSq, targetA, targetB, rayX]
  · intro h
    have : (2 : ℕ) = 1 := congrArg Obj.objectID h
    omega

/-! ### C9: the drawable view and the objects map stay consistent -/

/-- A well-formed objects map: keys are unique (a hash map property) and
every stored object carries the key it is stored under. -/
def WFMap (m : List (ℕ × Obj)) : Prop :=
  (m.map Prod.fst).Nodup ∧ ∀ p ∈ m, p.2.objectID = p.1

/-- How many entries of the drawable view carry the given id. -/
def viewCount (st : AreaState) (id : ℕ) : ℕ :=
  st.drawableObjects.countP fun o => decide (o.objectID = id)

/-- The consistency invariant between the objects map and the drawable
view: the map is well formed, every view entry is the object the map stores
under its id (and is drawable), and every drawable map entry appears in the
view exactly once. -/
def AreaInv (st : AreaState) : Prop :=
  WFMap st.objectsByID ∧
  (∀ o ∈ st.drawableObjects,
    st.objectsByID.lookup o.objectID = some o ∧ o.drawable = true) ∧
  (∀ p ∈ st.objectsByID, p.2.drawable = true → viewCount st p.1 = 1)

theorem removeFirstWithID_sublist (l : List Obj) (id : ℕ) :
    List.Sublist (removeFirstWithID l id) l := by
  induction l with
  | nil => exact List.Sublist.refl []
  | cons o t ih =>
    unfold removeFirstWithID
    by_cases ho : o.objectID = id
    · rw [if_pos ho]
      exact List.sublist_cons_self o t
    · rw [if_neg ho]
      exact List.Sublist.cons₂ o ih

theorem countP_removeFirst_ne (l : List Obj) (id k : ℕ) (hne : k ≠ id) :
    (removeFirstWithID l id).countP (fun o => decide (o.objectID = k)) =
      l.countP (fun o => decide (o.objectID = k)) := by
  induction l with
  | nil => rfl
  | cons o t ih =>
    unfold removeFirstWithID
    by_cases ho : o.objectID = id
    · rw [if_pos ho, List.countP_cons]
      have : (decide (o.objectID = k)) = false := by
        simp [ho]
        exact fun e => hne e.symm
      rw [this]
      simp
    · rw [if_neg ho, List.countP_cons, List.countP_cons, ih]

theorem countP_removeFirst_self (l : List Obj) (id : ℕ)
    (h : l.countP (fun o => decide (o.objectID = id)) = 1) :
    (removeFirstWithID l id).countP (fun o => decide (o.objectID = id)) = 0 := by
  induction l with
  | nil => simp [List.countP_nil] at h
  | cons o t ih =>
    unfold removeFirstWithID
    by_cases ho : o.objectID = id
    · rw [if_pos ho]
      rw [List.countP_cons] at h
      have hpo : (decide (o.objectID = id)) = true := by simp [ho]
      rw [hpo, if_pos rfl] at h
      omega
    · rw [if_neg ho]
      rw [List.countP_cons] at h ⊢
      have hpo : (decide (o.objectID = id)) = false := by simp [ho]
      rw [hpo] at h ⊢
      simp only [if_neg Bool.false_ne_true, Nat.add_zero] at h ⊢
      exact ih h

theorem areaInv_addObject {st st1 : AreaState} {obj : Obj} (hinv : AreaInv st)
    (h : addObject st obj = some st1) : AreaInv st1 := by
  unfold addObject at h
  by_cases hp : (st.objectsByID.lookup obj.objectID).isSome = true
  · rw [if_pos hp] at h
    exact absurd h (by simp)
  · rw [if_neg hp] at h
    have hnone : st.objectsByID.lookup obj.objectID = none := by
      cases hl : st.objectsByID.lookup obj.objectID with
      | none => rfl
      | some v => rw [hl] at hp; simp at hp
    have hst1 : st1 = { st with
        objectsByID := st.objectsByID ++ [(obj.objectID, obj)]
        drawableObjects :=
          if obj.drawable then obj :: st.drawableObjects else st.drawableObjects
        addedObjects :=
          if st.addedObjects.contains obj.objectID then st.addedObjects
          else st.addedObjects ++ [obj.objectID] } := (Option.some.inj h).symm
    subst hst1
    obtain ⟨⟨hnodup, hids⟩, hview, hcount⟩ := hinv
    have hidnotin : obj.objectID ∉ st.objectsByID.map Prod.fst :=
      not_mem_keys_of_lookup_eq_none hnone
    refine ⟨⟨?_, ?_⟩, ?_, ?_⟩
    · rw [List.map_append]
      refine List.Nodup.append hnodup (List.nodup_singleton _) ?_
      intro a ha hb
      simp only [List.map_cons, List.map_nil, List.mem_singleton] at hb
      subst hb
      exact hidnotin ha
    · intro p hp2
      rcases List.mem_append.mp hp2 with hin | hin
      · exact hids p hin
      · simp only [List.mem_singleton] at hin
        subst hin
        rfl
    · intro o2 hm
      have hmem : o2 = obj ∨ o2 ∈ st.drawableObjects := by
        by_cases hd : obj.drawable = true
        · rw [if_pos hd] at hm
          exact List.mem_cons.mp hm
        · rw [if_neg hd] at hm
          exact Or.inr hm
      rcases hmem with he | hin
      · subst he
        constructor
        · exact lookup_append_fresh o2 hnone
        · by_cases hd : o2.drawable = true
          · exact hd
          · rw [if_neg hd] at hm
            exact absurd ((hview o2 hm).2) hd
      · have hv := hview o2 hin
        refine ⟨?_, hv.2⟩
        rw [lookup_append_of_isSome (by rw [hv.1]; rfl)]
        exact hv.1
    · intro p hp2 hpd
      rcases List.mem_append.mp hp2 with hin | hin
      · have hc := hcount p hin hpd
        have hkey : p.1 ∈ st.objectsByID.map Prod.fst :=
          List.mem_map.mpr ⟨p, hin, rfl⟩
        have hne : obj.objectID ≠ p.1 := fun e => hidnotin (e ▸ hkey)
        unfold viewCount at hc ⊢
        by_cases hd : obj.drawable = true
        · rw [if_pos hd, List.countP_cons]
          have : (decide (obj.objectID = p.1)) = false := by simp [hne]
          rw [this]
          simpa using hc
        · rw [if_neg hd]
          exact hc
      · simp only [List.mem_singleton] at hin
        subst hin
        unfold viewCount
        rw [if_pos hpd, List.countP_cons]
        have hz : st.drawableObjects.countP
            (fun o => decide (o.objectID = obj.objectID)) = 0 := by
          apply List.countP_eq_zero.mpr
          intro o2 ho2 hpred
          have he : o2.objectID = obj.objectID := by simpa using hpred
          have := (hview o2 ho2).1
          rw [he, hnone] at this
          exact absurd this (by simp)
        rw [hz]
        simp

theorem areaInv_removeObject {st st1 : AreaState} {id : ℕ} (hinv : AreaInv st)
    (h : removeObject st id = some st1) : AreaInv st1 := by
  unfold removeObject at h
  by_cases hp : (st.objectsByID.lookup id).isSome = true
  · rw [if_pos hp] at h
    have hst1 : st1 = { st with
        objectsByID := st.objectsByID.filter fun p => p.1 ≠ id
        drawableObjects := removeFirstWithID st.drawableObjects id
        addedObjects := st.addedObjects.filter fun i => i ≠ id } :=
      (Option.some.inj h).symm
    subst hst1
    obtain ⟨⟨hnodup, hids⟩, hview, hcount⟩ := hinv
    have hview_ne_id : ∀ o2 ∈ removeFirstWithID st.drawableObjects id,
        o2.objectID ≠ id := by
      intro o2 hm2 he2
      have hin : o2 ∈ st.drawableObjects :=
        (removeFirstWithID_sublist _ _).mem hm2
      have hv := hview o2 hin
      have hentry : (id, o2) ∈ st.objectsByID :=
        mem_of_lookup_eq_some (he2 ▸ hv.1)
      have hc1 : viewCount st id = 1 := hcount (id, o2) hentry hv.2
      have hc0 : (removeFirstWithID st.drawableObjects id).countP
          (fun o => decide (o.objectID = id)) = 0 :=
        countP_removeFirst_self _ _ hc1
      have : o2 ∈ removeFirstWithID st.drawableObjects id ∧
          (decide (o2.objectID = id)) = true := ⟨hm2, by simp [he2]⟩
      have hpos := List.countP_eq_zero.mp hc0 o2 hm2
      exact hpos (by simp [he2])
    refine ⟨⟨?_, ?_⟩, ?_, ?_⟩
    · exact hnodup.sublist (List.Sublist.map Prod.fst (List.filter_sublist _))
    · intro p hp2
      exact hids p (List.mem_of_mem_filter hp2)
    · intro o2 hm2
      have hin : o2 ∈ st.drawableObjects :=
        (removeFirstWithID_sublist _ _).mem hm2
      have hv := hview o2 hin
      refine ⟨?_, hv.2⟩
      rw [lookup_filter_ne (hview_ne_id o2 hm2)]
      exact hv.1
    · intro p hp2 hpd
      have hpm := List.mem_of_mem_filter hp2
      have hpne : p.1 ≠ id := by
        have := List.of_mem_filter hp2
        simpa using this
      unfold viewCount
      rw [countP_removeFirst_ne _ _ _ hpne]
      exact hcount p hpm hpd
  · rw [if_neg hp] at h
    exact absurd h (by simp)

theorem count_drawable_values : ∀ (m : List (ℕ × Obj)), WFMap m →
    ∀ (k : ℕ) (o : Obj), (k, o) ∈ m → o.drawable = true →
    ((m.map Prod.snd).filter (fun x => x.drawable)).countP
      (fun x => decide (x.objectID = k)) = 1 := by
  intro m
  induction m with
  | nil =>
    intro _ k o hm
    exact absurd hm (List.not_mem_nil _)
  | cons p t ih =>
    intro hwf k o hm hd
    obtain ⟨hnodup, hids⟩ := hwf
    simp only [List.map_cons, List.nodup_cons] at hnodup
    have hwf_t : WFMap t := ⟨hnodup.2, fun q hq => hids q (List.mem_cons_of_mem _ hq)⟩
    have hkeyzero : ∀ k2, k2 ∉ t.map Prod.fst →
        ((t.map Prod.snd).filter (fun x => x.drawable)).countP
          (fun x => decide (x.objectID = k2)) = 0 := by
      intro k2 hk2
      apply List.countP_eq_zero.mpr
      intro x hx hpred
      rcases List.mem_filter.mp hx with ⟨hxm, _⟩
      rcases List.mem_map.mp hxm with ⟨q, hq, he⟩
      have : x.objectID = k2 := by simpa using hpred
      apply hk2
      rw [← this, ← he]
      rw [hids q (List.mem_cons_of_mem _ hq)]
      exact List.mem_map.mpr ⟨q, hq, rfl⟩
    rcases List.mem_cons.mp hm with he | ht
    · have hpk : p.1 = k := congrArg Prod.fst he.symm
      have hpo : p.2 = o := congrArg Prod.snd he.symm
      simp only [List.map_cons]
      rw [List.filter_cons, if_pos (by rw [hpo]; exact hd)]
      rw [List.countP_cons]
      have hpred : (decide (p.2.objectID = k)) = true := by
        simp [hids p (List.mem_cons_self p t), hpk]
      rw [hpred]
      rw [hkeyzero k (by rw [← hpk]; exact hnodup.1)]
      simp
    · have hmain := ih hwf_t k o ht hd
      have hkmem : k ∈ t.map Prod.fst := by
        have : o.objectID = k := hids (k, o) (List.mem_cons_of_mem _ ht)
        exact List.mem_map.mpr ⟨(k, o), ht, rfl⟩
      have hpne : p.1 ≠ k := fun e => hnodup.1 (e ▸ hkmem)
      simp only [List.map_cons]
      rw [List.filter_cons]
      by_cases hpd : p.2.drawable = true
      · rw [if_pos hpd, List.countP_cons]
        have hpred : (decide (p.2.objectID = k)) = false := by
          simp [hids p (List.mem_cons_self p t)]
          exact hpne
        rw [hpred]
        simpa using hmain
      · rw [if_neg hpd]
        exact hmain

theorem areaInv_mkArea (m : List (ℕ × Obj)) (hwf : WFMap m) : AreaInv (mkArea m) := by
  have hperm := List.perm_insertionSort
    (fun a b => compareObjects a b = true)
    ((m.map Prod.snd).filter fun o => o.drawable)
  refine ⟨hwf, ?_, ?_⟩
  · intro o hm
    have hm2 : o ∈ (m.map Prod.snd).filter fun o2 => o2.drawable :=
      hperm.mem_iff.mp hm
    rcases List.mem_filter.mp hm2 with ⟨hval, hdraw⟩
    rcases List.mem_map.mp hval with ⟨p, hp, he⟩
    have hid : o.objectID = p.1 := by rw [← he]; exact hwf.2 p hp
    constructor
    · rw [hid]
      have : (p.1, o) ∈ m := by
        rw [← he]
        exact hp
      exact lookup_of_mem_nodup this hwf.1
    · exact hdraw
  · intro p hp hpd
    unfold viewCount
    show (List.insertionSort _ _).countP _ = 1
    rw [List.Perm.countP_eq _ hperm]
    have : (p.1, p.2) ∈ m := hp
    exact count_drawable_values m hwf p.1 p.2 this hpd

theorem areaInv_applyOps : ∀ (ops : List AreaOp) (st st1 : AreaState),
    AreaInv st → applyOps st ops = some st1 → AreaInv st1 := by
  intro ops
  induction ops with
  | nil =>
    intro st st1 hinv h
    simp only [applyOps] at h
    rw [← Option.some.inj h]
    exact hinv
  | cons op rest ih =>
    intro st st1 hinv h
    simp only [applyOps] at h
    cases hop : applyOp st op with
    | none => rw [hop] at h; exact absurd h (by simp)
    | some st2 =>
      rw [hop] at h
      have hinv2 : AreaInv st2 := by
        cases op with
        | addOp obj => exact areaInv_addObject hinv hop
        | removeOp id => exact areaInv_removeObject hinv hop
      exact ih st2 st1 hinv2 h

theorem removeAdd_viewCount {st : AreaState} (hinv : AreaInv st) (id : ℕ)
    (obj2 : Obj) (hpresent : (st.objectsByID.lookup id).isSome = true)
    (hid : obj2.objectID = id) (hd : obj2.drawable = true) :
    ∃ st2, applyOps st [AreaOp.removeOp id, AreaOp.addOp obj2] = some st2 ∧
      st2.drawableObjects.countP (fun o => decide (o.objectID = id)) = 1 := by
  obtain ⟨⟨hnodup, hids⟩, hview, hcount⟩ := hinv
  obtain ⟨o0, ho0⟩ := Option.isSome_iff_exists.mp hpresent
  have hremove : removeObject st id = some { st with
      objectsByID := st.objectsByID.filter fun p => p.1 ≠ id
      drawableObjects := removeFirstWithID st.drawableObjects id
      addedObjects := st.addedObjects.filter fun i => i ≠ id } := by
    unfold removeObject
    rw [if_pos hpresent]
  have hviewzero : (removeFirstWithID st.drawableObjects id).countP
      (fun o => decide (o.objectID = id)) = 0 := by
    by_cases ho0d : o0.drawable = true
    · exact countP_removeFirst_self _ _ (hcount (id, o0) (mem_of_lookup_eq_some ho0) ho0d)
    · have hz : st.drawableObjects.countP (fun o => decide (o.objectID = id)) = 0 := by
        apply List.countP_eq_zero.mpr
        intro o2 ho2 hpred
        have he : o2.objectID = id := by simpa using hpred
        have hv := hview o2 ho2
        rw [he, ho0] at hv
        exact ho0d (Option.some.inj hv.1 ▸ hv.2)
      have hle := List.Sublist.countP_le (fun o => decide (o.objectID = id))
        (removeFirstWithID_sublist st.drawableObjects id)
      omega
  have hlookup2 : (({ st with
      objectsByID := st.objectsByID.filter fun p => p.1 ≠ id
      drawableObjects := removeFirstWithID st.drawableObjects id
      addedObjects := st.addedObjects.filter fun i => i ≠ id } :
        AreaState).objectsByID.lookup obj2.objectID) = none := by
    rw [hid]
    exact lookup_filter_self st.objectsByID id
  have hadd : addObject { st with
      objectsByID := st.objectsByID.filter fun p => p.1 ≠ id
      drawableObjects := removeFirstWithID st.drawableObjects id
      addedObjects := st.addedObjects.filter fun i => i ≠ id } obj2 =
      some { st with
        objectsByID := (st.objectsByID.filter fun p => p.1 ≠ id) ++ [(obj2.objectID, obj2)]
        drawableObjects := obj2 :: removeFirstWithID st.drawableObjects id
        addedObjects :=
          if ((st.addedObjects.filter fun i => i ≠ id).contains obj2.objectID) then
            st.addedObjects.filter fun i => i ≠ id
          else (st.addedObjects.filter fun i => i ≠ id) ++ [obj2.objectID] } := by
    unfold addObject
    rw [if_neg (by rw [hlookup2]; simp)]
    rw [if_pos hd]
  refine ⟨{ st with
      objectsByID := (st.objectsByID.filter fun p => p.1 ≠ id) ++ [(obj2.objectID, obj2)]
      drawableObjects := obj2 :: removeFirstWithID st.drawableObjects id
      addedObjects :=
        if ((st.addedObjects.filter fun i => i ≠ id).contains obj2.objectID) then
          st.addedObjects.filter fun i => i ≠ id
        else (st.addedObjects.filter fun i => i ≠ id) ++ [obj2.objectID] }, ?_, ?_⟩
  · simp only [applyOps, applyOp, hremove, hadd]
  · show (obj2 :: removeFirstWithID st.drawableObjects id).countP
      (fun o => decide (o.objectID = id)) = 1
    rw [List.countP_cons, hviewzero]
    simp [hid]

/-- C9: starting from a freshly constructed area with a well-formed objects
map, after any successful sequence of `addObject` / `removeObject` calls
every view entry is stored in the objects map under its id and every
drawable map entry appears exactly once in the view; moreover removing an
id and adding a different drawable object under the same id succeeds and
leaves exactly one view entry for it. -/
theorem areaOps_view_consistent : ∀ (m : List (ℕ × Obj)) (ops : List AreaOp)
    (st1 : AreaState), WFMap m → applyOps (mkArea m) ops = some st1 →
    ((∀ o ∈ st1.drawableObjects, st1.objectsByID.lookup o.objectID = some o) ∧
      ∀ p ∈ st1.objectsByID, p.2.drawable = true →
        st1.drawableObjects.countP (fun o => decide (o.objectID = p.1)) = 1) ∧
    ∀ (id : ℕ) (obj2 : Obj), (st1.objectsByID.lookup id).isSome = true →
      obj2.objectID = id → obj2.drawable = true →
      ∃ st2, applyOps st1 [AreaOp.removeOp id, AreaOp.addOp obj2] = some st2 ∧
        st2.drawableObjects.countP (fun o => decide (o.objectID = id)) = 1 := by
  intro m ops st1 hwf happly
  have hinv : AreaInv st1 := areaInv_applyOps ops (mkArea m) st1 (areaInv_mkArea m hwf) happly
  refine ⟨⟨fun o hm => (hinv.2.1 o hm).1, fun p hp hpd => hinv.2.2 p hp hpd⟩, ?_⟩
  intro id obj2 hpresent hid hd
  exact removeAdd_viewCount hinv id obj2 hpresent hid hd

/-- A drawable object used by the C9 witness. -/
def unitCubeObj : Obj :=
  { objectID := 1
    objType := ObjType.cube
    flags := 0
    origin := ⟨0, 0, 0⟩
    size := ⟨1, 1, 1⟩
    destroyed := false
    invisible := false
    drawable := true
    planar := false
    boundingBox := ⟨⟨0, 0, 0⟩, ⟨1, 1, 1⟩, true⟩ }

/-- Witness for C9 at a concrete input: one drawable object, the empty
operation sequence. -/
theorem areaOps_view_consistent_witness :
    ((∀ o ∈ (mkArea [(1, unitCubeObj)]).drawableObjects,
        (mkArea [(1, unitCubeObj)]).objectsByID.lookup o.objectID = some o) ∧
      ∀ p ∈ (mkArea [(1, unitCubeObj)]).objectsByID, p.2.drawable = true →
        (mkArea [(1, unitCubeObj)]).drawableObjects.countP
          (fun o => decide (o.objectID = p.1)) = 1) ∧
    ∀ (id : ℕ) (obj2 : Obj),
      ((mkArea [(1, unitCubeObj)]).objectsByID.lookup id).isSome = true →
      obj2.objectID = id → obj2.drawable = true →
      ∃ st2, applyOps (mkArea [(1, unitCubeObj)])
          [AreaOp.removeOp id, AreaOp.addOp obj2] = some st2 ∧
        st2.drawableObjects.countP (fun o => decide (o.objectID = id)) = 1 :=
  areaOps_view_consistent [(1, unitCubeObj)] [] (mkArea [(1, unitCubeObj)])
    ⟨by simp, by
      intro p hp
      simp only [List.mem_singleton] at hp
      rw [hp]
      rfl⟩ rfl

/-! ### C7: saveObjects / loadObjects round trip -/

/-- The accumulated effect of loading a list of object records: each record
sets the flags and origin of the map entry stored under its key. -/
def applyAll (la : List (ℕ × Obj)) (m : List (ℕ × Obj)) : List (ℕ × Obj) :=
  la.foldl (fun m2 p => setObjInMap m2 p.1 p.2.flags p.2.origin) m

/-- One loaded record paired with the stored entry it updates. -/
def updEntry (pA pB : ℕ × Obj) : ℕ × Obj :=
  (pB.1, { pB.2 with flags := pA.2.flags, origin := pA.2.origin })

theorem setObjInMap_keys (m : List (ℕ × Obj)) (k f : ℕ) (pos : Vec3) :
    (setObjInMap m k f pos).map Prod.fst = m.map Prod.fst := by
  unfold setObjInMap
  rw [List.map_map]
  apply List.map_congr_left
  intro p _
  by_cases hp : p.1 = k
  · simp [hp]
  · simp [hp]

theorem setObjInMap_cons_ne (q : ℕ × Obj) (m : List (ℕ × Obj)) (k f : ℕ)
    (pos : Vec3) (h : q.1 ≠ k) :
    setObjInMap (q :: m) k f pos = q :: setObjInMap m k f pos := by
  unfold setObjInMap
  rw [List.map_cons, if_neg h]

theorem setObjInMap_cons_eq (q : ℕ × Obj) (m : List (ℕ × Obj)) (f : ℕ)
    (pos : Vec3) :
    setObjInMap (q :: m) q.1 f pos =
      (q.1, { q.2 with flags := f, origin := pos }) :: setObjInMap m q.1 f pos := by
  unfold setObjInMap
  rw [List.map_cons, if_pos rfl]

theorem setObjInMap_not_mem (m : List (ℕ × Obj)) (k f : ℕ) (pos : Vec3)
    (h : k ∉ m.map Prod.fst) : setObjInMap m k f pos = m := by
  induction m with
  | nil => rfl
  | cons q t ih =>
    simp only [List.map_cons, List.mem_cons, not_or] at h
    rw [setObjInMap_cons_ne q t k f pos (fun e => h.1 e.symm)]
    rw [ih h.2]

theorem applyAll_cons_notmem : ∀ (la : List (ℕ × Obj)) (q : ℕ × Obj)
    (m : List (ℕ × Obj)), q.1 ∉ la.map Prod.fst →
    applyAll la (q :: m) = q :: applyAll la m := by
  intro la
  induction la with
  | nil =>
    intro q m _
    rfl
  | cons p t ih =>
    intro q m h
    simp only [List.map_cons, List.mem_cons, not_or] at h
    show applyAll t (setObjInMap (q :: m) p.1 p.2.flags p.2.origin) = _
    rw [setObjInMap_cons_ne q m p.1 p.2.flags p.2.origin h.1]
    rw [ih q _ h.2]
    rfl

theorem applyAll_zip : ∀ (la lb : List (ℕ × Obj)),
    la.map Prod.fst = lb.map Prod.fst → (la.map Prod.fst).Nodup →
    applyAll la lb = List.zipWith updEntry la lb := by
  intro la
  induction la with
  | nil =>
    intro lb hk _
    have : lb = [] := by
      cases lb with
      | nil => rfl
      | cons q t => simp at hk
    subst this
    rfl
  | cons pA ta ih =>
    intro lb hk hn
    cases lb with
    | nil => simp at hk
    | cons pB tb =>
      simp only [List.map_cons, List.cons.injEq] at hk
      simp only [List.map_cons, List.nodup_cons] at hn
      show applyAll ta (setObjInMap (pB :: tb) pA.1 pA.2.flags pA.2.origin) = _
      have hEq : setObjInMap (pB :: tb) pA.1 pA.2.flags pA.2.origin =
          (pB.1, { pB.2 with flags := pA.2.flags, origin := pA.2.origin }) ::
            setObjInMap tb pA.1 pA.2.flags pA.2.origin := by
        rw [show pA.1 = pB.1 from hk.1]
        exact setObjInMap_cons_eq pB tb pA.2.flags pA.2.origin
      rw [hEq]
      rw [setObjInMap_not_mem tb pA.1 pA.2.flags pA.2.origin (by rw [← hk.2]; exact hn.1)]
      rw [applyAll_cons_notmem ta (pB.1, _) tb (by
        show pB.1 ∉ ta.map Prod.fst
        rw [← hk.1]
        exact hn.1)]
      rw [ih tb hk.2 hn.2]
      rfl

theorem lookup_zipWith_upd : ∀ (la lb : List (ℕ × Obj)) (k : ℕ) (oA : Obj),
    la.map Prod.fst = lb.map Prod.fst → la.lookup k = some oA →
    ∃ oB, (List.zipWith updEntry la lb).lookup k = some oB ∧
      oB.flags = oA.flags ∧ oB.origin = oA.origin := by
  intro la
  induction la with
  | nil =>
    intro lb k oA _ hl
    simp [List.lookup] at hl
  | cons pA ta ih =>
    intro lb k oA hk hl
    cases lb with
    | nil => simp at hk
    | cons pB tb =>
      simp only [List.map_cons, List.cons.injEq] at hk
      rw [lookup_cons] at hl
      by_cases hke : k = pA.1
      · rw [if_pos hke] at hl
        have hoA : pA.2 = oA := Option.some.inj hl
        refine ⟨{ pB.2 with flags := pA.2.flags, origin := pA.2.origin }, ?_, ?_, ?_⟩
        · show ((updEntry pA pB :: List.zipWith updEntry ta tb).lookup k) = _
          rw [lookup_cons, if_pos (by rw [hke, hk.1]; rfl)]
          rfl
        · rw [hoA]
        · rw [hoA]
      · rw [if_neg hke] at hl
        obtain ⟨oB, hob, hf, ho⟩ := ih tb k oA hk.2 hl
        refine ⟨oB, ?_, hf, ho⟩
        show ((updEntry pA pB :: List.zipWith updEntry ta tb).lookup k) = _
        rw [lookup_cons, if_neg (by show k ≠ pB.1; rw [← hk.1]; exact hke)]
        exact hob

theorem flatMap_enc_zipWith : ∀ (la lb : List (ℕ × Obj)),
    la.map Prod.fst = lb.map Prod.fst →
    (List.zipWith updEntry la lb).flatMap encodeObjEntry =
      la.flatMap encodeObjEntry := by
  intro la
  induction la with
  | nil =>
    intro lb _
    rfl
  | cons pA ta ih =>
    intro lb hk
    cases lb with
    | nil => simp at hk
    | cons pB tb =>
      simp only [List.map_cons, List.cons.injEq] at hk
      show (updEntry pA pB :: List.zipWith updEntry ta tb).flatMap encodeObjEntry = _
      rw [List.flatMap_cons, List.flatMap_cons, ih tb hk.2]
      have hhead : encodeObjEntry (updEntry pA pB) = encodeObjEntry pA := by
        unfold encodeObjEntry updEntry
        rw [hk.1]
      rw [hhead]

theorem zipWith_upd_length (la lb : List (ℕ × Obj))
    (hk : la.map Prod.fst = lb.map Prod.fst) :
    (List.zipWith updEntry la lb).length = la.length := by
  have hlen : la.length = lb.length := by
    rw [← List.length_map la Prod.fst, hk, List.length_map]
  rw [List.length_zipWith]
  omega

theorem lookup_append_right_of_none {β : Type} {l1 : List (ℕ × β)}
    (l2 : List (ℕ × β)) {k : ℕ} (h : l1.lookup k = none) :
    (l1 ++ l2).lookup k = l2.lookup k := by
  induction l1 with
  | nil => rfl
  | cons p t ih =>
    rw [lookup_cons] at h
    rw [List.cons_append, lookup_cons]
    by_cases hk : k = p.1
    · rw [if_pos hk] at h
      exact absurd h (by simp)
    · rw [if_neg hk] at h
      rw [if_neg hk]
      exact ih h

theorem setObjInMap_append (m1 m2 : List (ℕ × Obj)) (k f : ℕ) (pos : Vec3) :
    setObjInMap (m1 ++ m2) k f pos =
      setObjInMap m1 k f pos ++ setObjInMap m2 k f pos := by
  unfold setObjInMap
  exact List.map_append _ m1 m2

theorem applyAll_keys : ∀ (la m : List (ℕ × Obj)),
    (applyAll la m).map Prod.fst = m.map Prod.fst := by
  intro la
  induction la with
  | nil =>
    intro m
    rfl
  | cons p t ih =>
    intro m
    show (applyAll t (setObjInMap m p.1 p.2.flags p.2.origin)).map Prod.fst = _
    rw [ih, setObjInMap_keys]

theorem applyAll_length (la m : List (ℕ × Obj)) :
    (applyAll la m).length = m.length := by
  rw [← List.length_map (applyAll la m) Prod.fst, applyAll_keys, List.length_map]

/-- The map entry produced by loading one record whose key is absent from
the area: the object duplicated from the global area, carrying the loaded
flags and origin (the fallback arm is unreachable when the key resolves in
the global area). -/
def dupEntry (global : List (ℕ × Obj)) (p : ℕ × Obj) : ℕ × Obj :=
  match global.lookup p.1 with
  | some g => (p.1, { g with flags := p.2.flags, origin := p.2.origin })
  | none => p

theorem dupEntry_fst (global : List (ℕ × Obj)) (p : ℕ × Obj) :
    (dupEntry global p).1 = p.1 := by
  unfold dupEntry
  cases global.lookup p.1 <;> rfl

theorem dupEntry_flags (global : List (ℕ × Obj)) (p : ℕ × Obj) :
    (dupEntry global p).2.flags = p.2.flags := by
  unfold dupEntry
  cases global.lookup p.1 <;> rfl

theorem dupEntry_origin (global : List (ℕ × Obj)) (p : ℕ × Obj) :
    (dupEntry global p).2.origin = p.2.origin := by
  unfold dupEntry
  cases global.lookup p.1 <;> rfl

theorem lookup_map_dupEntry (global : List (ℕ × Obj)) : ∀ (l : List (ℕ × Obj))
    (k : ℕ) (oA : Obj), l.lookup k = some oA →
    ∃ oB, ((l.map (dupEntry global)).lookup k) = some oB ∧
      oB.flags = oA.flags ∧ oB.origin = oA.origin := by
  intro l
  induction l with
  | nil =>
    intro k oA h
    simp [List.lookup] at h
  | cons p t ih =>
    intro k oA h
    rw [lookup_cons] at h
    rw [List.map_cons, lookup_cons]
    by_cases hk : k = p.1
    · rw [if_pos (by rw [dupEntry_fst]; exact hk)]
      rw [if_pos hk] at h
      have hoA : p.2 = oA := Option.some.inj h
      exact ⟨(dupEntry global p).2, rfl,
        by rw [dupEntry_flags, hoA], by rw [dupEntry_origin, hoA]⟩
    · rw [if_neg (by rw [dupEntry_fst]; exact hk)]
      rw [if_neg hk] at h
      exact ih k oA h

theorem flatMap_enc_map_dup (global : List (ℕ × Obj)) : ∀ (l : List (ℕ × Obj)),
    ((l.map (dupEntry global)).flatMap encodeObjEntry) =
      l.flatMap encodeObjEntry := by
  intro l
  induction l with
  | nil => rfl
  | cons p t ih =>
    rw [List.map_cons, List.flatMap_cons, List.flatMap_cons, ih]
    have hhead : encodeObjEntry (dupEntry global p) = encodeObjEntry p := by
      unfold encodeObjEntry
      rw [dupEntry_fst, dupEntry_flags, dupEntry_origin]
    rw [hhead]

theorem loadEntries_chunk (global : List (ℕ × Obj)) : ∀ (la : List (ℕ × Obj))
    (n2 : ℕ) (ws2 : List Word) (st : AreaState),
    (∀ p ∈ la, (st.objectsByID.lookup p.1).isSome = true) →
    loadEntries global (n2 + la.length) (la.flatMap encodeObjEntry ++ ws2) st =
      loadEntries global n2 ws2 { st with objectsByID := applyAll la st.objectsByID } := by
  intro la
  induction la with
  | nil =>
    intro n2 ws2 st _
    rfl
  | cons p t ih =>
    intro n2 ws2 st hpres
    rw [List.flatMap_cons]
    show loadEntries global (n2 + t.length + 1)
      (Word.u32 p.1 :: Word.u32 p.2.flags :: Word.f32 p.2.origin.x ::
        Word.f32 p.2.origin.y :: Word.f32 p.2.origin.z ::
        (t.flatMap encodeObjEntry ++ ws2)) st = _
    obtain ⟨v, hv⟩ := Option.isSome_iff_exists.mp (hpres p (List.mem_cons_self p t))
    show (match applyObjEntry global st p.1 p.2.flags
        ⟨p.2.origin.x, p.2.origin.y, p.2.origin.z⟩ with
      | none => none
      | some st1 =>
        loadEntries global (n2 + t.length) (t.flatMap encodeObjEntry ++ ws2) st1) = _
    unfold applyObjEntry
    rw [hv]
    have hpres2 : ∀ q ∈ t,
        ((setObjInMap st.objectsByID p.1 p.2.flags
          ⟨p.2.origin.x, p.2.origin.y, p.2.origin.z⟩).lookup q.1).isSome = true := by
      intro q hq
      apply lookup_isSome_of_mem_keys
      rw [setObjInMap_keys]
      exact mem_keys_of_lookup_isSome (hpres q (List.mem_cons_of_mem p hq))
    show loadEntries global (n2 + t.length) (t.flatMap encodeObjEntry ++ ws2) { st with objectsByID := setObjInMap st.objectsByID p.1 p.2.flags ⟨p.2.origin.x, p.2.origin.y, p.2.origin.z⟩ } = loadEntries global n2 ws2 { st with objectsByID := applyAll (p :: t) st.objectsByID }
    rw [ih n2 ws2 { st with objectsByID := setObjInMap st.objectsByID p.1 p.2.flags ⟨p.2.origin.x, p.2.origin.y, p.2.origin.z⟩ } hpres2]
    rfl

theorem loadEntries_missing (global : List (ℕ × Obj)) : ∀ (la : List (ℕ × Obj))
    (rest : List Word) (st : AreaState),
    (∀ p ∈ la, st.objectsByID.lookup p.1 = none) →
    (∀ p ∈ la, ∃ g, global.lookup p.1 = some g ∧ g.objectID = p.1) →
    (la.map Prod.fst).Nodup →
    ∃ dr ad, loadEntries global la.length (la.flatMap encodeObjEntry ++ rest) st =
      some ({ objectsByID := st.objectsByID ++ la.map (dupEntry global),
              drawableObjects := dr, addedObjects := ad,
              colorRemaps := st.colorRemaps }, rest) := by
  intro la
  induction la with
  | nil =>
    intro rest st _ _ _
    refine ⟨st.drawableObjects, st.addedObjects, ?_⟩
    rw [List.map_nil, List.append_nil]
    rfl
  | cons p t ih =>
    intro rest st habs hglob hnd
    obtain ⟨g, hg, hgid⟩ := hglob p (List.mem_cons_self p t)
    have habs_p : st.objectsByID.lookup p.1 = none := habs p (List.mem_cons_self p t)
    simp only [List.map_cons, List.nodup_cons] at hnd
    have hcond : ¬ ((st.objectsByID.lookup g.objectID).isSome = true) := by
      rw [hgid, habs_p]
      simp
    have haddObj : addObject st g = some { st with
        objectsByID := st.objectsByID ++ [(p.1, g)],
        drawableObjects :=
          if g.drawable then g :: st.drawableObjects else st.drawableObjects,
        addedObjects :=
          if st.addedObjects.contains p.1 then st.addedObjects
          else st.addedObjects ++ [p.1] } := by
      unfold addObject
      rw [if_neg hcond, hgid]
    have hsingle : setObjInMap [(p.1, g)] p.1 p.2.flags
        ⟨p.2.origin.x, p.2.origin.y, p.2.origin.z⟩ =
        [(p.1, { g with flags := p.2.flags, origin := ⟨p.2.origin.x, p.2.origin.y, p.2.origin.z⟩ })] := by
      simp [setObjInMap]
    have happly : applyObjEntry global st p.1 p.2.flags
        ⟨p.2.origin.x, p.2.origin.y, p.2.origin.z⟩ = some
        { objectsByID := st.objectsByID ++
            [(p.1, { g with flags := p.2.flags, origin := ⟨p.2.origin.x, p.2.origin.y, p.2.origin.z⟩ })],
          drawableObjects :=
            if g.drawable then g :: st.drawableObjects else st.drawableObjects,
          addedObjects :=
            if st.addedObjects.contains p.1 then st.addedObjects
            else st.addedObjects ++ [p.1],
          colorRemaps := st.colorRemaps } := by
      unfold applyObjEntry
      rw [habs_p, hg]
      show (match addObject st g with
        | none => none
        | some st1 => (some { st1 with objectsByID := setObjInMap st1.objectsByID p.1 p.2.flags ⟨p.2.origin.x, p.2.origin.y, p.2.origin.z⟩ } : Option AreaState)) = _
      rw [haddObj]
      show (some { objectsByID := setObjInMap (st.objectsByID ++ [(p.1, g)]) p.1 p.2.flags ⟨p.2.origin.x, p.2.origin.y, p.2.origin.z⟩,
                   drawableObjects := if g.drawable then g :: st.drawableObjects else st.drawableObjects,
                   addedObjects := if st.addedObjects.contains p.1 then st.addedObjects else st.addedObjects ++ [p.1],
                   colorRemaps := st.colorRemaps } : Option AreaState) = _
      rw [setObjInMap_append]
      rw [setObjInMap_not_mem st.objectsByID p.1 p.2.flags
        ⟨p.2.origin.x, p.2.origin.y, p.2.origin.z⟩
        (not_mem_keys_of_lookup_eq_none habs_p)]
      rw [hsingle]
    have habs2 : ∀ q ∈ t, ((st.objectsByID ++
        [(p.1, { g with flags := p.2.flags, origin := ⟨p.2.origin.x, p.2.origin.y, p.2.origin.z⟩ })]).lookup
          q.1) = none := by
      intro q hq
      have h1 : st.objectsByID.lookup q.1 = none := habs q (List.mem_cons_of_mem p hq)
      have hne : q.1 ≠ p.1 := by
        intro e
        apply hnd.1
        rw [← e]
        exact List.mem_map.mpr ⟨q, hq, rfl⟩
      rw [lookup_append_right_of_none _ h1, lookup_cons, if_neg hne]
      rfl
    have hglob2 : ∀ q ∈ t, ∃ g2, global.lookup q.1 = some g2 ∧ g2.objectID = q.1 :=
      fun q hq => hglob q (List.mem_cons_of_mem p hq)
    obtain ⟨dr, ad, hrec⟩ := ih rest
      { objectsByID := st.objectsByID ++
          [(p.1, { g with flags := p.2.flags, origin := ⟨p.2.origin.x, p.2.origin.y, p.2.origin.z⟩ })],
        drawableObjects :=
          if g.drawable then g :: st.drawableObjects else st.drawableObjects,
        addedObjects :=
          if st.addedObjects.contains p.1 then st.addedObjects
          else st.addedObjects ++ [p.1],
        colorRemaps := st.colorRemaps } habs2 hglob2 hnd.2
    refine ⟨dr, ad, ?_⟩
    rw [List.flatMap_cons]
    show (match applyObjEntry global st p.1 p.2.flags
        ⟨p.2.origin.x, p.2.origin.y, p.2.origin.z⟩ with
      | none => none
      | some st1 =>
        loadEntries global t.length (t.flatMap encodeObjEntry ++ rest) st1) = _
    rw [happly]
    show loadEntries global t.length (t.flatMap encodeObjEntry ++ rest)
        { objectsByID := st.objectsByID ++ [(p.1, { g with flags := p.2.flags, origin := ⟨p.2.origin.x, p.2.origin.y, p.2.origin.z⟩ })],
          drawableObjects := if g.drawable then g :: st.drawableObjects else st.drawableObjects,
          addedObjects := if st.addedObjects.contains p.1 then st.addedObjects else st.addedObjects ++ [p.1],
          colorRemaps := st.colorRemaps } = _
    rw [hrec]
    have hdup : dupEntry global p =
        (p.1, { g with flags := p.2.flags, origin := p.2.origin }) := by
      unfold dupEntry
      rw [hg]
    rw [List.map_cons, hdup, List.append_assoc]
    rfl

theorem assocSet_fresh : ∀ (l : List (ℕ × ℕ)) (k v : ℕ), k ∉ l.map Prod.fst →
    assocSet l k v = l ++ [(k, v)] := by
  intro l
  induction l with
  | nil =>
    intro k v _
    rfl
  | cons q t ih =>
    intro k v h
    simp only [List.map_cons, List.mem_cons, not_or] at h
    unfold assocSet
    rw [if_neg (fun e => h.1 e.symm)]
    rw [ih k v h.2]
    rfl

theorem loadRemaps_encode : ∀ (l : List (ℕ × ℕ)) (rest : List Word)
    (st : AreaState), ((st.colorRemaps ++ l).map Prod.fst).Nodup →
    loadRemaps l.length (l.flatMap encodeRemapEntry ++ rest) st =
      some ({ st with colorRemaps := st.colorRemaps ++ l }, rest) := by
  intro l
  induction l with
  | nil =>
    intro rest st _
    rw [List.append_nil]
    rfl
  | cons q t ih =>
    intro rest st hn
    rw [List.flatMap_cons]
    show loadRemaps (t.length + 1)
      (Word.u32 q.1 :: Word.u32 q.2 :: (t.flatMap encodeRemapEntry ++ rest)) st = _
    show loadRemaps t.length (t.flatMap encodeRemapEntry ++ rest)
      (remapColor st q.1 q.2) = _
    have hfresh : q.1 ∉ st.colorRemaps.map Prod.fst := by
      intro hmem
      rw [List.map_append] at hn
      rcases List.nodup_append.mp hn with ⟨_, _, hdisj⟩
      exact hdisj hmem (by simp)
    have hremap : remapColor st q.1 q.2 =
        { st with colorRemaps := st.colorRemaps ++ [(q.1, q.2)] } := by
      unfold remapColor
      rw [assocSet_fresh st.colorRemaps q.1 q.2 hfresh]
    rw [hremap]
    have hn2 : ((((st.colorRemaps ++ [(q.1, q.2)])) ++ t).map Prod.fst).Nodup := by
      rw [List.append_assoc, List.singleton_append]
      exact hn
    rw [ih rest _ hn2]
    rw [List.append_assoc, List.singleton_append]

/-- C7: for every area state `A` that extends a freshly-built area `B` from
the same level data — the static entries of `A` carry the same ids in the
same storage order as `B`, while the remaining (runtime-added) entries are
absent from `B` but resolvable in the global area — loading the stream
written by `saveObjects A` into `B` consumes the whole stream, duplicates
the missing objects from the global area, reproduces for every object id
the flags bitmask and 3D origin of `A`, reproduces the color-remap map, and
saving again yields a byte-identical stream. -/
theorem saveObjects_loadObjects_roundTrip : ∀ (A B : AreaState)
    (global laP laM : List (ℕ × Obj)),
    A.objectsByID = laP ++ laM →
    laP.map Prod.fst = B.objectsByID.map Prod.fst →
    (∀ p ∈ laM, B.objectsByID.lookup p.1 = none) →
    (∀ p ∈ laM, ∃ g, global.lookup p.1 = some g ∧ g.objectID = p.1) →
    (A.objectsByID.map Prod.fst).Nodup →
    (A.colorRemaps.map Prod.fst).Nodup →
    ∃ B1, loadObjects global (saveObjects A) B = some (B1, []) ∧
      (∀ (k : ℕ) (oA : Obj), A.objectsByID.lookup k = some oA →
        ∃ oB, B1.objectsByID.lookup k = some oB ∧ oB.flags = oA.flags ∧
          oB.origin = oA.origin) ∧
      B1.colorRemaps = A.colorRemaps ∧
      saveObjects B1 = saveObjects A := by
  intro A B global laP laM hA hkeysP habsM hglobM hnodup hremnodup
  have hndsplit : ((laP.map Prod.fst) ++ (laM.map Prod.fst)).Nodup := by
    rw [← List.map_append, ← hA]
    exact hnodup
  obtain ⟨ndP, ndM, hdisj⟩ := List.nodup_append.mp hndsplit
  have hpresP : ∀ p ∈ laP, ((B.objectsByID.lookup p.1).isSome = true) := by
    intro p hp
    apply lookup_isSome_of_mem_keys
    rw [← hkeysP]
    exact List.mem_map.mpr ⟨p, hp, rfl⟩
  have habs2 : ∀ p ∈ laM,
      (({ B with objectsByID := applyAll laP B.objectsByID } :
        AreaState).objectsByID.lookup p.1) = none := by
    intro p hp
    apply lookup_eq_none_of_not_mem_keys
    show p.1 ∉ (applyAll laP B.objectsByID).map Prod.fst
    rw [applyAll_keys]
    exact not_mem_keys_of_lookup_eq_none (habsM p hp)
  obtain ⟨dr, ad, hmiss⟩ := loadEntries_missing global laM
    (Word.u32 A.colorRemaps.length :: A.colorRemaps.flatMap encodeRemapEntry)
    { B with objectsByID := applyAll laP B.objectsByID } habs2 hglobM ndM
  refine ⟨{ objectsByID := applyAll laP B.objectsByID ++ laM.map (dupEntry global),
            drawableObjects := dr, addedObjects := ad,
            colorRemaps := A.colorRemaps }, ?_, ?_, rfl, ?_⟩
  · show (match loadEntries global A.objectsByID.length
        (A.objectsByID.flatMap encodeObjEntry ++
          (Word.u32 A.colorRemaps.length :: A.colorRemaps.flatMap encodeRemapEntry))
        B with
      | none => none
      | some (st1, ws1) =>
        match ws1 with
        | Word.u32 m :: rest2 => loadRemaps m rest2 { st1 with colorRemaps := [] }
        | _ => none) = _
    have hcount : A.objectsByID.length = laM.length + laP.length := by
      rw [hA, List.length_append, Nat.add_comm]
    have hflat : A.objectsByID.flatMap encodeObjEntry =
        laP.flatMap encodeObjEntry ++ laM.flatMap encodeObjEntry := by
      rw [hA, List.flatMap_append]
    rw [hcount, hflat, List.append_assoc]
    rw [loadEntries_chunk global laP laM.length
      (laM.flatMap encodeObjEntry ++
        (Word.u32 A.colorRemaps.length :: A.colorRemaps.flatMap encodeRemapEntry))
      B hpresP]
    rw [hmiss]
    show loadRemaps A.colorRemaps.length (A.colorRemaps.flatMap encodeRemapEntry)
      { objectsByID := applyAll laP B.objectsByID ++ laM.map (dupEntry global),
        drawableObjects := dr, addedObjects := ad, colorRemaps := [] } = _
    have hload := loadRemaps_encode A.colorRemaps []
      { objectsByID := applyAll laP B.objectsByID ++ laM.map (dupEntry global),
        drawableObjects := dr, addedObjects := ad, colorRemaps := [] }
      (by rw [List.nil_append]; exact hremnodup)
    rw [List.append_nil] at hload
    rw [hload]
    rfl
  · intro k oA hk
    rw [hA] at hk
    cases hP : laP.lookup k with
    | some oA2 =>
      have hksome : (laP ++ laM).lookup k = laP.lookup k :=
        lookup_append_of_isSome (by rw [hP]; rfl)
      rw [hksome, hP] at hk
      have hoA : oA2 = oA := Option.some.inj hk
      obtain ⟨oB, hob, hf, ho⟩ := lookup_zipWith_upd laP B.objectsByID k oA hkeysP
        (by rw [hP, hoA])
      have h1 : (applyAll laP B.objectsByID).lookup k = some oB := by
        rw [applyAll_zip laP B.objectsByID hkeysP ndP]
        exact hob
      refine ⟨oB, ?_, hf, ho⟩
      show ((applyAll laP B.objectsByID ++ laM.map (dupEntry global)).lookup k) =
        some oB
      rw [lookup_append_of_isSome (by rw [h1]; rfl)]
      exact h1
    | none =>
      have hknone : (laP ++ laM).lookup k = laM.lookup k :=
        lookup_append_right_of_none _ hP
      rw [hknone] at hk
      obtain ⟨oB, hob, hf, ho⟩ := lookup_map_dupEntry global laM k oA hk
      refine ⟨oB, ?_, hf, ho⟩
      have h1 : (applyAll laP B.objectsByID).lookup k = none := by
        apply lookup_eq_none_of_not_mem_keys
        rw [applyAll_keys, ← hkeysP]
        exact not_mem_keys_of_lookup_eq_none hP
      show ((applyAll laP B.objectsByID ++ laM.map (dupEntry global)).lookup k) =
        some oB
      rw [lookup_append_right_of_none _ h1]
      exact hob
  · show Word.u32 (applyAll laP B.objectsByID ++ laM.map (dupEntry global)).length ::
      (((applyAll laP B.objectsByID ++ laM.map (dupEntry global)).flatMap
          encodeObjEntry) ++
        (Word.u32 A.colorRemaps.length :: A.colorRemaps.flatMap encodeRemapEntry)) =
      saveObjects A
    have hBlen : B.objectsByID.length = laP.length := by
      rw [← List.length_map B.objectsByID Prod.fst, ← hkeysP, List.length_map]
    have hlen : (applyAll laP B.objectsByID ++ laM.map (dupEntry global)).length =
        A.objectsByID.length := by
      rw [List.length_append, applyAll_length, List.length_map, hBlen, hA,
        List.length_append]
    have hfm : ((applyAll laP B.objectsByID ++ laM.map (dupEntry global)).flatMap
        encodeObjEntry) = A.objectsByID.flatMap encodeObjEntry := by
      rw [List.flatMap_append, applyAll_zip laP B.objectsByID hkeysP ndP,
        flatMap_enc_zipWith laP B.objectsByID hkeysP, flatMap_enc_map_dup global laM,
        hA, List.flatMap_append]
    rw [hlen, hfm]
    rfl

/-- The global-area template object (id 2) that the fresh area is missing. -/
def globalTemplate : Obj := { unitCubeObj with objectID := 2 }

/-- The saved runtime duplicate of the template, with changed flags/origin. -/
def savedDup : Obj :=
  { unitCubeObj with objectID := 2, flags := 7, origin := ⟨5, 6, 7⟩ }

/-- The area being saved: one static object (id 1), one runtime-added
duplicate (id 2), one color remap. -/
def savedArea : AreaState :=
  { objectsByID := [(1, unitCubeObj), (2, savedDup)], drawableObjects := [],
    addedObjects := [], colorRemaps := [(3, 4)] }

/-- The freshly-built target area: only the static object (id 1). -/
def freshArea : AreaState :=
  { objectsByID := [(1, unitCubeObj)], drawableObjects := [], addedObjects := [],
    colorRemaps := [] }

/-- Witness for C7 at a concrete input: the saved area holds a static object
(id 1) and a runtime-duplicated object (id 2) absent from the fresh area;
the load resolves id 2 through the global area. -/
theorem saveObjects_loadObjects_roundTrip_witness :
    ∃ B1, loadObjects [(2, globalTemplate)] (saveObjects savedArea) freshArea =
        some (B1, []) ∧
      (∀ (k : ℕ) (oA : Obj), savedArea.objectsByID.lookup k = some oA →
        ∃ oB, B1.objectsByID.lookup k = some oB ∧ oB.flags = oA.flags ∧
          oB.origin = oA.origin) ∧
      B1.colorRemaps = savedArea.colorRemaps ∧
      saveObjects B1 = saveObjects savedArea :=
  saveObjects_loadObjects_roundTrip savedArea freshArea [(2, globalTemplate)]
    [(1, unitCubeObj)] [(2, savedDup)] rfl rfl
    (by
      intro p hp
      simp only [List.mem_singleton] at hp
      rw [hp]
      rfl)
    (by
      intro p hp
      simp only [List.mem_singleton] at hp
      rw [hp]
      exact ⟨globalTemplate, rfl, rfl⟩)
    (by decide)
    (by decide)

end Freescape
